import Mathlib

/-!
Verification development for the ReAct agent control loop of this repository.

The repository contains three variants of the loop:
* `lib/agents.py` — `OptimalReActAgent` (dense/sparse policies, regex parser,
  exception-based tool dispatch, single terminal event);
* `lib/custom_react_agent.py` — `ReActAgent` with loop detection (`deque`
  signature history), repair logic and string-valued tool errors;
* `lib/react_agent.py` — `ReActAgent` that streams the final answer and the
  observation character by character and keeps conversation memory across
  `stream` calls.

All three are embedded below as executable Lean functions over `List Char` /
`String`.  The language model and the tools are external collaborators and are
modelled as oracles (`Nat → String` for the model responses of one `stream`
invocation, association lists of `String → Except String String` for tools;
JSON decoding of structured tool arguments is folded into the tool
collaborator).  Python regular expressions are embedded as handwritten
scanners that reproduce the leftmost-match/backtracking behaviour of the
specific patterns used by the source.
-/

namespace AssistAI

/-! ### Character classes and string primitives (Python `\s`, `\w`, `str.strip`) -/

/-- Python `\s` for ASCII text: space, tab, newline, carriage return,
vertical tab, form feed. -/
def isSpaceC (c : Char) : Bool :=
  c = ' ' || c = '\t' || c = '\n' || c = '\r' || c = '\x0b' || c = '\x0c'

/-- Python `\w` for ASCII text: letters, digits, underscore. -/
def isWordC (c : Char) : Bool := c.isAlphanum || c = '_'

/-- Character class `[a-zA-Z0-9_-]` of the action regex in `react_agent.py`. -/
def isReactNameC (c : Char) : Bool := c.isAlphanum || c = '_' || c = '-'

/-- Remove trailing whitespace (the effect of a greedy `\s*` immediately before
a fixed literal in the patterns below). -/
def dropTrailingWs (l : List Char) : List Char :=
  (l.reverse.dropWhile isSpaceC).reverse

/-- Python `str.strip()` on `List Char`. -/
def stripL (l : List Char) : List Char :=
  dropTrailingWs (l.dropWhile isSpaceC)

/-- Python `str.strip()` on `String`. -/
def stripS (s : String) : String := ⟨stripL s.data⟩

/-- Does `s` start with the literal `pat`? -/
def startsWithL : List Char → List Char → Bool
  | [], _ => true
  | _ :: _, [] => false
  | p :: ps, c :: cs => p = c && startsWithL ps cs

/-- Case-insensitive `startsWithL` (for the `re.IGNORECASE` patterns of
`custom_react_agent.py`). -/
def startsWithCIL : List Char → List Char → Bool
  | [], _ => true
  | _ :: _, [] => false
  | p :: ps, c :: cs => p.toLower = c.toLower && startsWithCIL ps cs

/-- Model of `re.search` for a plain literal: the remainder of `s` after the leftmost
occurrence of `pat`, if any. -/
def afterFirst (pat : List Char) : List Char → Option (List Char)
  | [] => if startsWithL pat [] then some [] else none
  | c :: cs =>
    if startsWithL pat (c :: cs) then some ((c :: cs).drop pat.length)
    else afterFirst pat cs

/-- Does `pat` occur (case-sensitively) as a contiguous substring of `s`? -/
def hasOcc (pat s : List Char) : Bool := (afterFirst pat s).isSome

/-- Case-insensitive leftmost literal search. -/
def afterFirstCI (pat : List Char) : List Char → Option (List Char)
  | [] => if startsWithCIL pat [] then some [] else none
  | c :: cs =>
    if startsWithCIL pat (c :: cs) then some ((c :: cs).drop pat.length)
    else afterFirstCI pat cs

/-- Does `pat` occur case-insensitively as a contiguous substring of `s`? -/
def hasOccCI (pat s : List Char) : Bool := (afterFirstCI pat s).isSome

/-- String-level substring test. -/
def hasOccStr (pat s : String) : Bool := hasOcc pat.data s.data

/-! ### `OptimalReActAgent` regexes (`agents.py` lines 35–38)

`ACTION_REGEX  = re.compile(r"Action:\s*(\w+)\s*\[(.*?)\]", re.DOTALL)`
`FINAL_ANSWER_REGEX = re.compile(r"Final Answer:\s*(.*)", re.DOTALL)`
`THOUGHT_REGEX = re.compile(r"Thought:\s*(.*)", re.DOTALL)`

For `Thought:\s*(.*)` with `re.DOTALL`, the group always captures the whole
remainder after the leftmost `Thought:`, with leading whitespace absorbed by
the greedy `\s*`.  For the action pattern, `\s*` and `\w+` are forced to their
maximal runs (the neighbouring character classes are disjoint), and the lazy
`(.*?)` stops at the first `]` after the `[`; if no `]` follows, the match at
this start position fails and `re.search` advances. -/

/-- Group 1 of `THOUGHT_REGEX.search`: text after the leftmost `Thought:`,
with leading whitespace consumed by `\s*`. -/
def thoughtGroup (s : List Char) : Option (List Char) :=
  (afterFirst "Thought:".data s).map (fun r => r.dropWhile isSpaceC)

/-- Group 1 of `FINAL_ANSWER_REGEX.search`. -/
def finalAnswerGroup (s : List Char) : Option (List Char) :=
  (afterFirst "Final Answer:".data s).map (fun r => r.dropWhile isSpaceC)

/-- Attempt to match `Action:\s*(\w+)\s*\[(.*?)\]` anchored at the head of
`s`; returns the two groups on success. -/
def tryActionAt (s : List Char) : Option (List Char × List Char) :=
  if startsWithL "Action:".data s then
    let r1 := (s.drop 7).dropWhile isSpaceC
    let nm := r1.takeWhile isWordC
    if nm.isEmpty then none
    else
      match (r1.dropWhile isWordC).dropWhile isSpaceC with
      | c2 :: r2 =>
        if c2 = '[' then
          if r2.contains ']' then some (nm, r2.takeWhile (fun c => c ≠ ']'))
          else none
        else none
      | [] => none
  else none

/-- Model of `ACTION_REGEX.search`: try every start position from the left, first
success wins. -/
def scanAction : List Char → Option (List Char × List Char)
  | [] => none
  | c :: cs =>
    match tryActionAt (c :: cs) with
    | some r => some r
    | none => scanAction cs

/-- All matches of the action pattern, one attempt per start position, in
left-to-right order.  This is the reference notion of "the occurrences of
`name[argument]` in the text" used to state the spec's last-occurrence
property. -/
def allActionOccs : List Char → List (List Char × List Char)
  | [] => []
  | c :: cs =>
    (match tryActionAt (c :: cs) with
     | some r => [r]
     | none => []) ++ allActionOccs cs

/-- Model of `OptimalReActAgent._parse_agent_output` (`agents.py` lines 118–140).
Returns `(thought, action_name, action_input)`; `none` plays the role of
Python's `None`. -/
def parseAgentOutput (s : String) : Option String × Option String × Option String :=
  let thought : Option String := (thoughtGroup s.data).map (fun g => ⟨stripL g⟩)
  match finalAnswerGroup s.data with
  | some fa => (thought, some "finish", some ⟨stripL fa⟩)
  | none =>
    match scanAction s.data with
    | some (n, a) => (thought, some ⟨stripL n⟩, some ⟨stripL a⟩)
    | none => (thought, none, none)

/-- Exception-aware rendering of `_parse_agent_output`: every `match.group`
access that Python would perform on a possibly-`None` match object goes
through `Except`, exactly where the source guards it.  Used to settle the
parser-totality claim. -/
def groupAcc (m : Option (List Char)) : Except String (List Char) :=
  match m with
  | some g => Except.ok g
  | none => Except.error "AttributeError: NoneType has no attribute group"

def parseAgentOutputE (s : String) :
    Except String (Option String × Option String × Option String) :=
  let tm := thoughtGroup s.data
  let thoughtE : Except String (Option String) :=
    match tm with
    | some _ =>
      match groupAcc tm with
      | Except.ok g => Except.ok (some ⟨stripL g⟩)
      | Except.error e => Except.error e
    | none => Except.ok none
  match thoughtE with
  | Except.error e => Except.error e
  | Except.ok thought =>
    let fm := finalAnswerGroup s.data
    match fm with
    | some _ =>
      match groupAcc fm with
      | Except.ok g => Except.ok (thought, some "finish", some ⟨stripL g⟩)
      | Except.error e => Except.error e
    | none =>
      match scanAction s.data with
      | some (n, a) => Except.ok (thought, some ⟨stripL n⟩, some ⟨stripL a⟩)
      | none => Except.ok (thought, none, none)

/-! ### `custom_react_agent.py` — `ReActAgent._parse_action` (lines 76–118)

Pattern 1 (`pattern_perfect`):
`Thought: (.*?)\s*Action: (.*?)\s*\[(.*?)\]\s*$`, `re.DOTALL | re.IGNORECASE`.
Pattern 2 (`pattern_action_only`): `Action: (.*?)\s*\[(.*?)\]`, same flags.
Pattern 3 (`thought_pattern`): `Thought: (.*?)\s*$`, same flags — it matches
whenever `Thought: ` occurs at all.

The lazy groups are resolved in ascending order with backtracking: a candidate
`[` whose bracketed content cannot be closed (or, for the perfect pattern,
whose closing `]` is not followed by whitespace-to-end) is absorbed into the
preceding lazy group and the next candidate is tried.  The greedy `\s*$`
absorbs all trailing whitespace, so `group(0)` of the perfect pattern runs
from the match start to the end of the string. -/

/-- Group 3 of the perfect pattern together with the `\s*$` anchor: the
content up to the first `]` whose remainder is all whitespace; a `]` that is
not followed by whitespace-to-end is absorbed into the group. -/
def perfectClose : List Char → Option (List Char)
  | [] => none
  | c :: cs =>
    if c = ']' && cs.all isSpaceC then some []
    else (perfectClose cs).map (fun g => c :: g)

/-- Groups 2 and 3 of the perfect pattern, scanning the text after
`Action: ` for the first `[` whose content can be closed under the `\s*$`
anchor; a failed `[` is absorbed into the lazy group 2. -/
def perfectNameArg : List Char → Option (List Char × List Char)
  | [] => none
  | c :: cs =>
    if c = '[' then
      match perfectClose cs with
      | some arg => some ([], arg)
      | none => (perfectNameArg cs).map (fun p => (c :: p.1, p.2))
    else (perfectNameArg cs).map (fun p => (c :: p.1, p.2))

/-- The perfect pattern after its leading `Thought: ` literal: the lazy
group 1 ends at the first case-insensitive `Action: ` occurrence whose tail
completes the match; group 2 has the `\s*` before `[` trimmed. -/
def perfectBody : List Char → Option (List Char × List Char)
  | [] => none
  | c :: cs =>
    if startsWithCIL "Action: ".data (c :: cs) then
      match perfectNameArg ((c :: cs).drop 8) with
      | some (g2, g3) => some (dropTrailingWs g2, g3)
      | none => perfectBody cs
    else perfectBody cs

/-- Match the perfect pattern anchored at the head of `s`.  On success
returns `(group0, group2, group3)`; `group0` is the whole suffix because the
trailing greedy `\s*$` extends the match to the end of the string. -/
def tryPerfectAt (s : List Char) : Option (List Char × List Char × List Char) :=
  if startsWithCIL "Thought: ".data s then
    (perfectBody (s.drop 9)).map (fun p => (s, p.1, p.2))
  else none

/-- Model of `pattern_perfect.search`. -/
def scanPerfect : List Char → Option (List Char × List Char × List Char)
  | [] => none
  | c :: cs =>
    match tryPerfectAt (c :: cs) with
    | some r => some r
    | none => scanPerfect cs

/-- Groups of `pattern_action_only` after its `Action: ` literal: the first
`[` with any `]` after it wins; the lazy group 2 stops at the first `]`. -/
def customNameArg : List Char → Option (List Char × List Char)
  | [] => none
  | c :: cs =>
    if c = '[' then
      if cs.contains ']' then some ([], cs.takeWhile (fun x => x ≠ ']'))
      else (customNameArg cs).map (fun p => (c :: p.1, p.2))
    else (customNameArg cs).map (fun p => (c :: p.1, p.2))

/-- Match `pattern_action_only` anchored at the head of `s`; group 1 has the
`\s*` before `[` trimmed. -/
def tryCustomActionAt (s : List Char) : Option (List Char × List Char) :=
  if startsWithCIL "Action: ".data s then
    (customNameArg (s.drop 8)).map (fun p => (dropTrailingWs p.1, p.2))
  else none

/-- Model of `pattern_action_only.search`, also returning the text before the match
(the source synthesizes a thought from `text[:match.start()]`). -/
def scanCustomAction : List Char → Option (List Char × List Char × List Char)
  | [] => none
  | c :: cs =>
    match tryCustomActionAt (c :: cs) with
    | some (n, a) => some ([], n, a)
    | none => (scanCustomAction cs).map (fun r => (c :: r.1, r.2.1, r.2.2))

/-- The default thought synthesized by `_parse_action` when no text precedes
the matched action. -/
def synthDefaultThought : String :=
  "Synthesized Thought: Agent found an unformatted Action intent in the raw output."

/-- Model of `ReActAgent._parse_action` of `custom_react_agent.py`.  Returns
`(full_text, action_name, action_input)` or `none`. -/
def customParseAction (s : String) : Option (String × String × String) :=
  match scanPerfect s.data with
  | some (full, n, a) => some (⟨stripL full⟩, ⟨stripL n⟩, ⟨stripL a⟩)
  | none =>
    match scanCustomAction s.data with
    | some (pre, n, a) =>
      let name : String := ⟨stripL n⟩
      let arg : String := ⟨stripL a⟩
      let thoughtText : String :=
        if (stripL pre).isEmpty then synthDefaultThought else ⟨stripL pre⟩
      some ("Thought: " ++ thoughtText ++ "\nAction: " ++ name ++ "[" ++ arg ++ "]",
            name, arg)
    | none =>
      if hasOccCI "Thought: ".data s.data then some (stripS s, "", "")
      else none

/-! ### `react_agent.py` — the action regex of `_stream_thought_action`
(line 154): `Action\s*\d*:\s*([a-zA-Z0-9_-]+)\s*\[(.*?)\]`, `re.DOTALL`,
consumed with `findall`, taking the **last** match. -/

/-- Split at the first `]`: the content before it and the remainder after. -/
def splitClose : List Char → Option (List Char × List Char)
  | [] => none
  | c :: cs =>
    if c = ']' then some ([], cs)
    else (splitClose cs).map (fun p => (c :: p.1, p.2))

/-- Match the `react_agent.py` action pattern anchored at the head of `s`;
returns `(name, argument, rest-after-match)`. -/
def tryReactAt (s : List Char) : Option (List Char × List Char × List Char) :=
  if startsWithL "Action".data s then
    match ((s.drop 6).dropWhile isSpaceC).dropWhile Char.isDigit with
    | c1 :: r2 =>
      if c1 = ':' then
        let r3 := r2.dropWhile isSpaceC
        let nm := r3.takeWhile isReactNameC
        if nm.isEmpty then none
        else
          match (r3.dropWhile isReactNameC).dropWhile isSpaceC with
          | c2 :: r4 =>
            if c2 = '[' then (splitClose r4).map (fun p => (nm, p.1, p.2)) else none
          | [] => none
      else none
    | [] => none
  else none

/-- Model of `findall` with explicit fuel: successive non-overlapping matches, each
search resuming after the end of the previous match. -/
def reactFindAllGo : Nat → List Char → List (List Char × List Char)
  | 0, _ => []
  | _ + 1, [] => []
  | f + 1, c :: cs =>
    match tryReactAt (c :: cs) with
    | some (n, a, rest) => (n, a) :: reactFindAllGo f rest
    | none => reactFindAllGo f cs

/-- Model of `action_regex.findall(full_text)`. -/
def reactFindAll (s : List Char) : List (List Char × List Char) :=
  reactFindAllGo (s.length + 1) s

/-- The action extraction of `ReActAgent._stream_thought_action`
(`react_agent.py` lines 163–172): takes the last `findall` match, stripped,
or raises `ValueError` when there is none.  The `Except.error` value is the
exception's message. -/
def reactExtract (s : String) : Except String (String × String × String) :=
  match (reactFindAll s.data).getLast? with
  | none => Except.error ("No Action found in LLM response:\n" ++ s)
  | some (n, a) => Except.ok (s, ⟨stripL n⟩, ⟨stripL a⟩)

/-! ### Conversation turns and stream events -/

/-- A conversation turn (`SystemMessage` / `HumanMessage` / `AIMessage` /
`ToolMessage` of the source). -/
inductive Msg
  | system (content : String)
  | user (content : String)
  | ai (content : String)
  | toolMsg (toolCallId name content : String)
  deriving DecidableEq, Repr

/-- A streamed event `{"type": ..., "content": ...}`.  The union of the event
types used by the three agent variants. -/
inductive Ev
  | info (content : String)
  | thought (content : String)
  | thoughtAction (content : String)
  | actionInput (content : String)
  | observation (content : String)
  | finalAnswer (content : String)
  | error (content : String)
  deriving DecidableEq, Repr

def isFinalEv : Ev → Bool
  | Ev.finalAnswer _ => true
  | _ => false

def isErrorEv : Ev → Bool
  | Ev.error _ => true
  | _ => false

/-- Terminal events: `final_answer` or `error`. -/
def isTermEv (e : Ev) : Bool := isFinalEv e || isErrorEv e

/-- A tool registry entry: name and invocation.  The tool itself is an
external collaborator; its invocation (including any JSON decoding of a
structured argument) is modelled as a function from the raw argument string
to either an observation or the text of the exception it raised. -/
abbrev ToolReg := List (String × (String → Except String String))

/-- Lookup in a Python dict built as `{t.name: t for t in tools}`: a later
entry with the same name overrides an earlier one. -/
def dictLookup (reg : ToolReg) (n : String) : Option (String → Except String String) :=
  (reg.reverse.find? (fun p => p.1 == n)).map (fun p => p.2)

/-- Python `str.lower()`; stated over the character list so that it evaluates
by kernel reduction. -/
def toLowerS (s : String) : String := ⟨s.data.map Char.toLower⟩

/-- Python `repr` of a list of strings, as produced by
`f"{list(self._tool_map.keys())}"`. -/
def pyListRepr (names : List String) : String :=
  "[" ++ String.intercalate ", " (names.map (fun s => "'" ++ s ++ "'")) ++ "]"

/-! ### `OptimalReActAgent.stream` (`agents.py` lines 167–254) -/

structure OptCfg where
  tools : ToolReg
  maxIterations : Nat
  sparseReasoning : Bool
  systemPrompt : String

/-- The reserved `finish` tool injected by the constructor; its invocation is
intercepted by the loop and never dispatched. -/
def finishTool : String → Except String String := fun s => Except.ok s

/-- Model of `self.tools_map = {t.name: t for t in tools + [self.finish]}`. -/
def optToolsMap (cfg : OptCfg) : ToolReg := cfg.tools ++ [("finish", finishTool)]

def optLookup (cfg : OptCfg) (n : String) : Option (String → Except String String) :=
  dictLookup (optToolsMap cfg) n

def optIterInfo (i total : Nat) : String :=
  "--- Iteration " ++ toString i ++ "/" ++ toString total ++ " ---"

def denseViolationMsg (out : String) : String :=
  "LLM output failed to follow DENSE ReAct format (Thought AND Action required). Output:\n" ++ out

def sparseViolationMsg (out : String) : String :=
  "LLM output failed to parse Thought or Action. Output:\n" ++ out

/-- The terminal event content for `ToolNotFoundError`: the handler wraps
`str(e)` (= `Tool '<n>' is not recognized.`), producing a doubled period. -/
def toolNotFoundEventMsg (n : String) : String :=
  "Parsing Error: Tool '" ++ n ++ "' is not recognized.. The tool suggested does not exist."

/-- The terminal event content for `ToolExecutionError`; `e` is the
`{type(e).__name__}: {str(e)}` rendering of the underlying tool failure. -/
def toolExecEventMsg (n a e : String) : String :=
  "Tool Execution Error: Error executing tool '" ++ n ++ "' with input '" ++ a ++
    "': " ++ e ++ ". The agent stopped."

def maxIterMsg (n : Nat) : String :=
  "Max iterations (" ++ toString n ++ ") reached without finding a Final Answer. Agent stopped."

/-- Model of `if thought: yield {"type": "thought", ...}` — `None` and the empty
string are both falsy. -/
def thoughtEvs : Option String → List Ev
  | some t => if t = "" then [] else [Ev.thought t]
  | none => []

/-- Model of `final_answer = action_input or llm_output` (falsy `None` / `""`). -/
def finishContent (aOpt : Option String) (out : String) : String :=
  match aOpt with
  | some a => if a = "" then out else a
  | none => out

/-- The iteration tail when no action was executed: the policy check of
`stream` steps 9 (`agents.py` lines 228–238). -/
def optNoActionStep (cfg : OptCfg) (i : Nat) (t : Option String) (out : String) :
    List Ev × Bool :=
  let infoE := Ev.info (optIterInfo i cfg.maxIterations)
  if cfg.sparseReasoning then
    match t with
    | none => (infoE :: thoughtEvs t ++ [Ev.error (sparseViolationMsg out)], true)
    | some _ => (infoE :: thoughtEvs t, false)
  else
    (infoE :: thoughtEvs t ++ [Ev.error (denseViolationMsg out)], true)

/-- One iteration of `OptimalReActAgent.stream`: the events it yields and
whether the generator returns afterwards.  The model response `out` is the
oracle's answer for this iteration. -/
def optIterStep (cfg : OptCfg) (i : Nat) (out : String) : List Ev × Bool :=
  let infoE := Ev.info (optIterInfo i cfg.maxIterations)
  match parseAgentOutput out with
  | (t, some n, aOpt) =>
    if n = "finish" then
      (infoE :: thoughtEvs t ++ [Ev.finalAnswer (finishContent aOpt out)], true)
    else
      match aOpt with
      | some a =>
        if n = "" then optNoActionStep cfg i t out
        else
          let evA := Ev.actionInput ("Action: " ++ n ++ "[" ++ a ++ "]")
          match optLookup cfg n with
          | none =>
            (infoE :: thoughtEvs t ++ [evA, Ev.error (toolNotFoundEventMsg n)], true)
          | some f =>
            match f a with
            | Except.error e =>
              (infoE :: thoughtEvs t ++ [evA, Ev.error (toolExecEventMsg n a e)], true)
            | Except.ok o =>
              let obs := stripS o
              if !cfg.sparseReasoning && t.isNone then
                (infoE :: thoughtEvs t ++
                  [evA, Ev.observation obs, Ev.error (denseViolationMsg out)], true)
              else
                (infoE :: thoughtEvs t ++ [evA, Ev.observation obs], false)
      | none => optNoActionStep cfg i t out
  | (t, none, _) => optNoActionStep cfg i t out

/-- The conversation-state update of one completed iteration. -/
def optIterHist (cfg : OptCfg) (out : String) (hist : List Msg) : List Msg :=
  let hist1 := if cfg.sparseReasoning then hist ++ [Msg.ai out] else hist
  match parseAgentOutput out with
  | (_, some n, some a) =>
    if n = "finish" ∨ n = "" then hist1
    else
      match optLookup cfg n with
      | none => hist1
      | some f =>
        match f a with
        | Except.error _ => hist1
        | Except.ok o =>
          let obs := stripS o
          (if cfg.sparseReasoning then hist1 else hist1 ++ [Msg.ai out]) ++
            [Msg.user ("Observation: " ++ obs)]
  | _ => hist1

/-- The loop of `OptimalReActAgent.stream`: `i` is the 1-based iteration
number, the second argument the remaining budget. -/
def optStreamGo (cfg : OptCfg) (oracle : Nat → String) : Nat → Nat → List Msg → List Ev
  | _, 0, _ => [Ev.error (maxIterMsg cfg.maxIterations)]
  | i, r + 1, hist =>
    let out := oracle (i - 1)
    let step := optIterStep cfg i out
    if step.2 then step.1
    else step.1 ++ optStreamGo cfg oracle (i + 1) r (optIterHist cfg out hist)

/-- Model of `OptimalReActAgent.stream(user_input)`: the full (finite) event trace of
one bounded query, for the model-response oracle `oracle`. -/
def optStream (cfg : OptCfg) (q : String) (oracle : Nat → String) : List Ev :=
  optStreamGo cfg oracle 1 cfg.maxIterations [Msg.system cfg.systemPrompt, Msg.user q]

/-! ### `custom_react_agent.py` — Loop-Guard and `ReActAgent.stream`
(lines 58–268) -/

/-- Model of `collections.deque(maxlen=W).append`: the oldest entry is evicted once
the capacity is exceeded (a deque with `maxlen=0` stays empty). -/
def dequePush (maxlen : Nat) (q : List (String × String)) (s : String × String) :
    List (String × String) :=
  let q2 := q ++ [s]
  q2.drop (q2.length - maxlen)

/-- The Loop-Guard check inlined in `stream` (lines 227–237): an incoming
signature `(action_name.lower(), action_input)` is loop-detected when its
name is not `finish` and it is already anywhere in the window; otherwise it
is appended (evicting the oldest at capacity).  Returns
`(detected?, new window)`. -/
def lgCheck (w : Nat) (hist : List (String × String)) (sig : String × String) :
    Bool × List (String × String) :=
  if sig.1 ≠ "finish" && hist.contains sig then (true, hist)
  else (false, dequePush w hist sig)

/-- Iterate the Loop-Guard check over a sequence of signatures, collecting
the detection results. -/
def lgRun (w : Nat) (hist : List (String × String)) :
    List (String × String) → List Bool
  | [] => []
  | s :: ss =>
    let r := lgCheck w hist s
    r.1 :: lgRun w r.2 ss

/-- The detection results of issuing the same signature `k` times to a fresh
Loop-Guard with window size `w`. -/
def lgRepeat (w : Nat) (sig : String × String) (k : Nat) : List Bool :=
  lgRun w [] (List.replicate k sig)

structure CustomCfg where
  tools : ToolReg
  maxIterations : Nat
  historyLength : Nat
  systemPrompt : String

/-- The persistent fields of a `custom_react_agent.ReActAgent` that survive
between `stream` calls: `self.messages` and `self.action_history`. -/
structure CustomState where
  msgs : List Msg
  hist : List (String × String)
  deriving DecidableEq, Repr

/-- The instruction injected before the model call when the last message is a
`ToolMessage` containing `SUCCESS` (lines 127–128). -/
def criticalInjection : String :=
  "CRITICAL: You have the successful observation. Immediately generate the final answer using the Thought: ... Action: finish[...] format. DO NOT HALLUCINATE A FAILURE. Copy the observation content *exactly* into the finish[] action."

/-- The content of the last message when it is a `ToolMessage`. -/
def lastToolMsg? (msgs : List Msg) : Option String :=
  match msgs.getLast? with
  | some (Msg.toolMsg _ _ content) => some content
  | _ => none

/-- The prompt assembled by `_stream_thought_action` (lines 123–128):
system prompt, conversation, and possibly the critical injection. -/
def customPrompt (sysP : String) (msgs : List Msg) : List Msg :=
  let base := Msg.system sysP :: msgs
  match lastToolMsg? msgs with
  | some content =>
    if hasOccStr "SUCCESS" content then base ++ [Msg.user criticalInjection] else base
  | none => base

/-- Group 1 of `re.search(r"\[STDOUT\]:\s*(.*)", content, re.DOTALL)`. -/
def stdoutGroup (s : List Char) : Option (List Char) :=
  (afterFirst "[STDOUT]:".data s).map (fun r => r.dropWhile isSpaceC)

/-- Model of `raw_output_snippet[:80].replace('\n', ' ')`. -/
def snippet80 (s : String) : String :=
  ⟨((stripL s.data).take 80).map (fun c => if c = '\n' then ' ' else c)⟩

def successRepairThought : String :=
  "Agent successfully executed a tool and received a SUCCESS Observation, but failed to form a complete Action or hallucinated an incorrect answer. Forcing a 'finish' action by synthesizing the final answer from the verified Observation content."

def conversationalRepairThought (snip : String) : String :=
  "The model responded conversationally or with an incomplete format. Forcing a 'finish' action to deliver the response: '" ++ snip ++ "...'"

/-- The repair logic of `_stream_thought_action` (lines 146–186), reached
when no action with a non-empty name was parsed. -/
def customRepair (msgs : List Msg) (out : String) :
    List Ev × Option (String × String × String) :=
  if stripS out ≠ "" || (lastToolMsg? msgs).isSome then
    let conversational :=
      let ans := stripS out
      let full := "Thought: " ++ conversationalRepairThought (snippet80 out) ++
        "\nAction: finish[" ++ ans ++ "]"
      ([Ev.thoughtAction full], some (full, "finish", ans))
    match lastToolMsg? msgs with
    | some content =>
      if hasOccStr "SUCCESS" content then
        let ans : String :=
          match stdoutGroup content.data with
          | some g => ⟨stripL g⟩
          | none => stripS content
        let full := "Thought: " ++ successRepairThought ++ "\nAction: finish[" ++ ans ++ "]"
        ([Ev.thoughtAction full], some (full, "finish", ans))
      else conversational
    | none => conversational
  else ([], none)

/-- Model of `_stream_thought_action` (lines 120–186): the events it yields and the
`self._last_action` it leaves behind. -/
def customTA (msgs : List Msg) (out : String) :
    List Ev × Option (String × String × String) :=
  match customParseAction out with
  | some (full, n, a) =>
    if n ≠ "" then ([Ev.thoughtAction full], some (full, n, a))
    else customRepair msgs out
  | none => customRepair msgs out

def customLoopMsg (i : Nat) (n a : String) : String :=
  "Loop Detected on iteration " ++ toString i ++ ": Repetitive action '" ++ n ++ "[" ++
    a ++ "]'. Terminating early to prevent infinite execution. Revise your thought process."

def customNoActionMsg : String :=
  "LLM failed to produce a complete 'Action: [Tool name][Tool input]' after a Thought."

def customMaxIterMsg (n : Nat) : String :=
  "Maximum steps (" ++ toString n ++ ") reached without a final answer. Agent failed to converge to a solution. Review the agent's memory trace."

/-- Model of `ReActAgent._execute_tool` of `custom_react_agent.py` (lines 189–203):
every failure is returned as an observation **string**, never raised. -/
def customExec (tools : ToolReg) (n a : String) : String :=
  match dictLookup tools n with
  | none =>
    "Error: Tool '" ++ n ++ "' not found. Available tools: " ++
      pyListRepr (tools.map (fun p => p.1)).eraseDups
  | some f =>
    match f a with
    | Except.ok o => o
    | Except.error e => "Tool Execution Error for " ++ n ++ ": " ++ e

/-- The result of one `custom_react_agent` `stream` call: events, the final
persistent state, and the trace of prompts sent to the model. -/
structure CustomOut where
  evs : List Ev
  state : CustomState
  ctxs : List (List Msg)
  deriving DecidableEq, Repr

/-- The loop of `custom_react_agent.ReActAgent.stream` (lines 212–268). -/
def customStreamGo (cfg : CustomCfg) (oracle : Nat → String) :
    Nat → Nat → List Msg → List (String × String) → List (List Msg) → CustomOut
  | _, 0, msgs, hist, ctxs =>
    ⟨[Ev.error (customMaxIterMsg cfg.maxIterations)], ⟨msgs, hist⟩, ctxs⟩
  | i, r + 1, msgs, hist, ctxs =>
    let ctx := customPrompt cfg.systemPrompt msgs
    let out := oracle (i - 1)
    let ctxs2 := ctxs ++ [ctx]
    let ta := customTA msgs out
    match ta.2 with
    | none => ⟨ta.1 ++ [Ev.error customNoActionMsg], ⟨msgs, hist⟩, ctxs2⟩
    | some (full, n, a) =>
      let sig := (toLowerS n, a)
      if toLowerS n ≠ "finish" && hist.contains sig then
        ⟨ta.1 ++ [Ev.error (customLoopMsg i n a)], ⟨msgs, hist⟩, ctxs2⟩
      else
        let hist2 := dequePush cfg.historyLength hist sig
        if toLowerS n = "finish" then
          ⟨ta.1 ++ [Ev.finalAnswer a], ⟨msgs ++ [Msg.ai full], hist2⟩, ctxs2⟩
        else
          let obs := customExec cfg.tools n a
          let msgs2 := msgs ++
            [Msg.ai full, Msg.toolMsg ("call_" ++ n ++ "_" ++ toString i) n obs]
          let rest := customStreamGo cfg oracle (i + 1) r msgs2 hist2 ctxs2
          ⟨ta.1 ++ [Ev.observation obs] ++ rest.evs, rest.state, rest.ctxs⟩

/-- Model of `custom_react_agent.ReActAgent.stream(query)`: the method clears
`self.messages` and `self.action_history` on entry, so the prior state is
discarded. -/
def customRun (_prior : CustomState) (cfg : CustomCfg) (q : String)
    (oracle : Nat → String) : CustomOut :=
  customStreamGo cfg oracle 1 cfg.maxIterations [Msg.user q] [] []

/-! ### `react_agent.py` — `ReActAgent.stream` (lines 72–146) -/

/-- Model of `json.loads(action_input)` followed by `parsed.get("input",
action_input)` (lines 100–104): the shape `{"input": "<text>"}` (without
escape sequences) yields the inner text; every other input falls back to the
raw argument — a non-object JSON value raises `AttributeError` on `.get`,
which the `except` clause also maps to the raw argument. -/
def jsonObjInput? (s : String) : Option String :=
  match s.data.dropWhile isSpaceC with
  | '{' :: r0 =>
    let r1 := r0.dropWhile isSpaceC
    if startsWithL "\"input\"".data r1 then
      match (r1.drop 7).dropWhile isSpaceC with
      | ':' :: r2 =>
        match r2.dropWhile isSpaceC with
        | '"' :: r3 =>
          let v := r3.takeWhile (fun c => c ≠ '"' && c ≠ '\\')
          match r3.drop v.length with
          | '"' :: r4 =>
            match r4.dropWhile isSpaceC with
            | '}' :: r5 => if r5.all isSpaceC then some ⟨v⟩ else none
            | _ => none
          | _ => none
        | _ => none
      | _ => none
    else none
  | _ => none

/-- The final-answer string of the finish branch (lines 100–107). -/
def reactFinishAnswer (a : String) : String := (jsonObjInput? a).getD a

def reactMaxIterMsg : String := "Max iterations reached without finishing."

/-- The result of one `react_agent` `stream` call: events, the final
persistent `self.messages`, and the trace of contexts sent to the model. -/
structure ReactOut where
  evs : List Ev
  msgs : List Msg
  ctxs : List (List Msg)
  deriving DecidableEq, Repr

/-- The loop of `react_agent.ReActAgent.stream`: `k` counts the model calls
made in this invocation, the second argument is the remaining budget.  The
final answer and the observation are streamed character by character. -/
def reactStreamGo (tools : ToolReg) (oracle : Nat → String) :
    Nat → Nat → List Msg → List (List Msg) → ReactOut
  | _, 0, msgs, ctxs => ⟨[Ev.error reactMaxIterMsg], msgs, ctxs⟩
  | k, r + 1, msgs, ctxs =>
    let out := oracle k
    let ctxs2 := ctxs ++ [msgs]
    match reactExtract out with
    | Except.error e => ⟨[Ev.thought out, Ev.error e], msgs, ctxs2⟩
    | Except.ok (full, n, a) =>
      let msgs2 := msgs ++ [Msg.ai full]
      if toLowerS n = "finish" then
        let ans := reactFinishAnswer a
        ⟨Ev.thought out :: ans.data.map (fun c => Ev.finalAnswer ⟨[c]⟩),
          msgs2 ++ [Msg.ai ans], ctxs2⟩
      else
        match dictLookup tools n with
        | none => ⟨[Ev.thought out, Ev.error ("Unknown tool '" ++ n ++ "'")], msgs2, ctxs2⟩
        | some f =>
          match f a with
          | Except.error e =>
            ⟨[Ev.thought out, Ev.error ("Tool error: " ++ e)], msgs2, ctxs2⟩
          | Except.ok obs =>
            let msgs3 := msgs2 ++ [Msg.user ("Observation: " ++ obs)]
            let rest := reactStreamGo tools oracle (k + 1) r msgs3 ctxs2
            ⟨Ev.thought out :: obs.data.map (fun c => Ev.observation ⟨[c]⟩) ++ rest.evs,
              rest.msgs, rest.ctxs⟩

/-- Model of `react_agent.ReActAgent.stream(user_input)`: unlike the other variants it
does **not** reset `self.messages`; the carried state `st` (initially
`[SystemMessage]` from the constructor) keeps growing across calls. -/
def reactRun (st : List Msg) (tools : ToolReg) (maxIter : Nat) (q : String)
    (oracle : Nat → String) : ReactOut :=
  reactStreamGo tools oracle 0 maxIter (st ++ [Msg.user q]) []

/-! ### Families of raw model texts used to state the parsing claims -/

/-- The character list of a well-formed `Action: name[argument]` segment
followed by `rest`. -/
def actSegment (n a : String) (rest : List Char) : List Char :=
  "Action: ".data ++ (n.data ++ ('[' :: (a.data ++ (']' :: rest))))

/-- A raw model text ending in a well-formed trailing `Thought:`/`Action:`
pair (the spec's first testable property). -/
def trailingPairText (t n a : String) : String :=
  "Thought: " ++ t ++ "\nAction: " ++ n ++ "[" ++ a ++ "]"

/-- A raw model text with two `name[argument]` occurrences and no exact
trailing ReAct pattern. -/
def twoActionText (n1 a1 n2 a2 : String) : String :=
  "Action: " ++ n1 ++ "[" ++ a1 ++ "]\nAction: " ++ n2 ++ "[" ++ a2 ++ "]"

/-! ### Basic lemmas about the scanning primitives -/

theorem length_dropWhile_le {α : Type} (p : α → Bool) (l : List α) :
    (l.dropWhile p).length ≤ l.length := by
  induction l with
  | nil => simp
  | cons c cs ih =>
    by_cases h : p c
    · rw [List.dropWhile_cons_of_pos h]
      exact Nat.le_succ_of_le ih
    · rw [List.dropWhile_cons_of_neg h]

theorem dropWhile_dropWhile_self {α : Type} (p : α → Bool) (l : List α) :
    (l.dropWhile p).dropWhile p = l.dropWhile p := by
  induction l with
  | nil => rfl
  | cons c cs ih =>
    by_cases h : p c
    · rw [List.dropWhile_cons_of_pos h, ih]
    · rw [List.dropWhile_cons_of_neg h, List.dropWhile_cons_of_neg h]

theorem dropWhile_all_neg {α : Type} {p : α → Bool} {l : List α}
    (h : ∀ a ∈ l, p a = false) : l.dropWhile p = l := by
  cases l with
  | nil => rfl
  | cons c cs =>
    exact List.dropWhile_cons_of_neg (by simp [h c (List.mem_cons_self c cs)])

theorem stripL_dropWhile (l : List Char) : stripL (l.dropWhile isSpaceC) = stripL l := by
  simp [stripL, dropWhile_dropWhile_self]

theorem dropTrailingWs_eq_self {l : List Char} (h : ∀ c ∈ l, isSpaceC c = false) :
    dropTrailingWs l = l := by
  unfold dropTrailingWs
  rw [dropWhile_all_neg (by intro a ha; exact h a (List.mem_reverse.mp ha))]
  exact List.reverse_reverse l

theorem stripL_eq_self {l : List Char} (h : ∀ c ∈ l, isSpaceC c = false) :
    stripL l = l := by
  unfold stripL
  rw [dropWhile_all_neg h, dropTrailingWs_eq_self h]

theorem startsWithL_append_self : ∀ (pat r : List Char), startsWithL pat (pat ++ r) = true
  | [], _ => rfl
  | p :: ps, r => by
    simp [startsWithL, List.append_eq, startsWithL_append_self ps r]

theorem afterFirst_of_startsWith {pat s : List Char} (h : startsWithL pat s = true) :
    afterFirst pat s = some (s.drop pat.length) := by
  cases s with
  | nil => simp [afterFirst, h]
  | cons c cs => simp [afterFirst, h]

theorem hasOcc_of_suffix {pat t : List Char} (hs : startsWithL pat t = true)
    (u : List Char) : hasOcc pat (u ++ t) = true := by
  induction u with
  | nil => simp [hasOcc, afterFirst_of_startsWith hs]
  | cons c u ih =>
    simp only [hasOcc, List.cons_append, afterFirst, List.append_eq]
    by_cases h : startsWithL pat (c :: (u ++ t)) = true
    · simp [h]
    · rw [if_neg h]
      exact ih

theorem startsWith_false_of_hasOcc_false {pat s t : List Char} (h : hasOcc pat s = false)
    (hst : t <:+ s) : startsWithL pat t = false := by
  cases hb : startsWithL pat t with
  | false => rfl
  | true =>
    obtain ⟨u, rfl⟩ := hst
    rw [hasOcc_of_suffix hb u] at h
    simp at h

theorem startsWithL_of_append : ∀ (pat zs r : List Char), pat.length ≤ zs.length →
    startsWithL pat (zs ++ r) = true → startsWithL pat zs = true
  | [], _, _, _, _ => rfl
  | _ :: _, [], _, hlen, _ => by simp at hlen
  | p :: ps, c :: cs, r, hlen, h => by
    simp only [List.cons_append, startsWithL, Bool.and_eq_true, decide_eq_true_eq] at h ⊢
    refine ⟨h.1, startsWithL_of_append ps cs r ?_ h.2⟩
    simpa using Nat.le_of_succ_le_succ (by simpa using hlen)

theorem prefix_of_startsWith : ∀ (pat zs r : List Char), zs.length ≤ pat.length →
    startsWithL pat (zs ++ r) = true → zs <+: pat
  | _, [], _, _, _ => List.nil_prefix
  | [], _ :: _, _, hlen, _ => by simp at hlen
  | p :: ps, c :: cs, r, hlen, h => by
    simp only [List.cons_append, startsWithL, Bool.and_eq_true, decide_eq_true_eq] at h
    obtain ⟨t, ht⟩ := prefix_of_startsWith ps cs r
      (by simpa using Nat.le_of_succ_le_succ (by simpa using hlen)) h.2
    exact ⟨t, by rw [List.cons_append, ht, h.1]⟩

theorem scanAction_append_none : ∀ (xs ys : List Char),
    (∀ zs, zs ≠ [] → zs <:+ xs → tryActionAt (zs ++ ys) = none) →
    scanAction (xs ++ ys) = scanAction ys
  | [], _, _ => rfl
  | x :: xs, ys, h => by
    have h1 : tryActionAt (x :: (xs ++ ys)) = none := by
      have := h (x :: xs) (by simp) (List.suffix_refl _)
      simpa using this
    have ih := scanAction_append_none xs ys
      (fun zs hne hzs => h zs hne (hzs.trans (List.suffix_cons x xs)))
    simp only [List.cons_append, scanAction, List.append_eq, h1]
    exact ih

theorem splitClose_length : ∀ {l a r : List Char}, splitClose l = some (a, r) →
    r.length < l.length := by
  intro l
  induction l with
  | nil => intro a r h; simp [splitClose] at h
  | cons c cs ih =>
    intro a r h
    simp only [splitClose] at h
    by_cases hc : c = ']'
    · rw [if_pos hc] at h
      obtain ⟨rfl, rfl⟩ : ([] : List Char) = a ∧ cs = r := by
        simpa using h
      simp [Nat.lt_succ_self]
    · rw [if_neg hc] at h
      obtain ⟨⟨a1, r1⟩, hs, heq⟩ := Option.map_eq_some'.mp h
      obtain ⟨rfl, rfl⟩ : c :: a1 = a ∧ r1 = r := by
        simpa using heq
      exact Nat.lt_succ_of_lt (ih hs)

theorem tryReactAt_length {c : Char} {cs n a r : List Char}
    (h : tryReactAt (c :: cs) = some (n, a, r)) : r.length ≤ cs.length := by
  unfold tryReactAt at h
  split at h
  case isFalse => exact absurd h (by simp)
  split at h
  case h_2 => exact absurd h (by simp)
  rename_i c1 r2 heq1
  split at h
  case isFalse => exact absurd h (by simp)
  dsimp only at h
  split at h
  case isTrue => exact absurd h (by simp)
  split at h
  case h_2 => exact absurd h (by simp)
  rename_i c2 r4 heq2
  split at h
  case isFalse => exact absurd h (by simp)
  obtain ⟨⟨a1, r1⟩, hs, heq⟩ := Option.map_eq_some'.mp h
  have hr : r1 = r := by
    have := congrArg (fun p => p.2.2) heq
    simpa using this
  subst hr
  have l1 := splitClose_length hs
  have l2 : r2.length + 1 ≤ cs.length := by
    have e0 := congrArg List.length heq1
    simp only [List.length_cons] at e0
    have e1 : ((c :: cs).drop 6).length ≤ cs.length := by
      simp only [List.length_drop, List.length_cons]; omega
    have e2 := length_dropWhile_le isSpaceC ((c :: cs).drop 6)
    have e3 :=
      length_dropWhile_le Char.isDigit (((c :: cs).drop 6).dropWhile isSpaceC)
    omega
  have l3 : r4.length + 1 ≤ r2.length := by
    have e0 := congrArg List.length heq2
    simp only [List.length_cons] at e0
    have e4 := length_dropWhile_le isSpaceC r2
    have e5 := length_dropWhile_le isReactNameC (r2.dropWhile isSpaceC)
    have e6 := length_dropWhile_le isSpaceC
      ((r2.dropWhile isSpaceC).dropWhile isReactNameC)
    omega
  omega

theorem reactGo_fuel : ∀ (f₁ : Nat) (s : List Char) (f₂ : Nat), s.length < f₁ →
    s.length < f₂ → reactFindAllGo f₁ s = reactFindAllGo f₂ s := by
  intro f₁
  induction f₁ with
  | zero => intro s f₂ h1 _; exact absurd h1 (by omega)
  | succ g ih =>
    intro s f₂ h1 h2
    cases f₂ with
    | zero => exact absurd h2 (by omega)
    | succ g₂ =>
      cases s with
      | nil => rfl
      | cons c cs =>
        simp only [List.length_cons] at h1 h2
        rw [reactFindAllGo, reactFindAllGo]
        cases htry : tryReactAt (c :: cs) with
        | none =>
          simp only [htry]
          exact ih cs g₂ (by omega) (by omega)
        | some t =>
          obtain ⟨n, a, r⟩ := t
          have hr := tryReactAt_length htry
          simp only [htry]
          rw [ih r g₂ (by omega) (by omega)]

/-- Clean rewriting rule for `reactFindAll`: the fuel is always sufficient. -/
theorem reactFindAll_cons (c : Char) (cs : List Char) :
    reactFindAll (c :: cs) =
      (match tryReactAt (c :: cs) with
       | some (n, a, r) => (n, a) :: reactFindAll r
       | none => reactFindAll cs) := by
  show reactFindAllGo (cs.length + 1 + 1) (c :: cs) = _
  rw [reactFindAllGo]
  cases htry : tryReactAt (c :: cs) with
  | none => simp only [htry]; rfl
  | some t =>
    obtain ⟨n, a, r⟩ := t
    simp only [htry]
    rw [reactGo_fuel (cs.length + 1) r (r.length + 1)
      (Nat.lt_succ_of_le (tryReactAt_length htry)) (Nat.lt_succ_self _)]
    rfl

theorem reactFindAll_cons' {c : Char} {cs n a r : List Char}
    (h : tryReactAt (c :: cs) = some (n, a, r)) :
    reactFindAll (c :: cs) = (n, a) :: reactFindAll r := by
  rw [reactFindAll_cons, h]

theorem reactFindAll_cons_none {c : Char} {cs : List Char}
    (h : tryReactAt (c :: cs) = none) :
    reactFindAll (c :: cs) = reactFindAll cs := by
  rw [reactFindAll_cons, h]

theorem reactFindAll_newline (x : List Char) :
    reactFindAll ('\n' :: x) = reactFindAll x :=
  reactFindAll_cons_none rfl


theorem suffix_last_mem {zs v : List Char} {c : Char} (h : zs <:+ v ++ [c])
    (hne : zs ≠ []) : c ∈ zs := by
  obtain ⟨u, hu⟩ := h
  have h2 := congrArg List.getLast? hu
  rw [List.getLast?_append, List.getLast?_concat] at h2
  cases hz : zs.getLast? with
  | none =>
    exact absurd (List.getLast?_eq_none_iff.mp hz) hne
  | some d =>
    rw [hz] at h2
    simp only [Option.or_some, Option.some.injEq] at h2
    subst h2
    exact List.mem_of_getLast?_eq_some hz

/-! ### Character-class facts and exact-match lemmas for the scanners -/

theorem isWordC_not_space {c : Char} (h : isWordC c = true) : isSpaceC c = false := by
  cases hs : isSpaceC c with
  | false => rfl
  | true =>
    exfalso
    simp only [isSpaceC, Bool.or_eq_true, decide_eq_true_eq] at hs
    rcases hs with ((((rfl | rfl) | rfl) | rfl) | rfl) | rfl <;> exact absurd h (by decide)

theorem isWordC_reactName {c : Char} (h : isWordC c = true) : isReactNameC c = true := by
  simp only [isWordC, Bool.or_eq_true] at h
  rcases h with h | h <;> simp [isReactNameC, h]

theorem startsWithCIL_append_self : ∀ (pat r : List Char),
    startsWithCIL pat (pat ++ r) = true
  | [], _ => rfl
  | p :: ps, r => by
    simp [startsWithCIL, List.append_eq, startsWithCIL_append_self ps r]

theorem splitClose_exact : ∀ (xs : List Char), (∀ c ∈ xs, c ≠ ']') → ∀ (ys : List Char),
    splitClose (xs ++ ']' :: ys) = some (xs, ys)
  | [], _, ys => by simp [splitClose]
  | x :: xs, hx, ys => by
    have hxne : x ≠ ']' := hx x (List.mem_cons_self x xs)
    have ih := splitClose_exact xs (fun c hc => hx c (List.mem_cons_of_mem x hc)) ys
    simp [splitClose, hxne, ih]

theorem customNameArg_through : ∀ (xs : List Char), (∀ c ∈ xs, c ≠ '[') → ∀ (ys : List Char),
    customNameArg (xs ++ ys) = (customNameArg ys).map (fun p => (xs ++ p.1, p.2))
  | [], _, ys => by
    cases h : customNameArg ys with
    | none => simp [h]
    | some p => simp [h]
  | x :: xs, hx, ys => by
    have hxne : x ≠ '[' := hx x (List.mem_cons_self x xs)
    have ih := customNameArg_through xs (fun c hc => hx c (List.mem_cons_of_mem x hc)) ys
    simp only [List.cons_append, customNameArg, if_neg hxne, List.append_eq, ih]
    cases customNameArg ys with
    | none => rfl
    | some p => rfl

/-- The `OptimalReActAgent` action pattern matches a well-formed segment at
its head and captures exactly the name and the bracketed argument. -/
theorem tryActionAt_exact (n a : String) (rest : List Char)
    (hne : n.data ≠ []) (hw : ∀ c ∈ n.data, isWordC c = true)
    (ha : ∀ c ∈ a.data, c ≠ ']') :
    tryActionAt (actSegment n a rest) = some (n.data, a.data) := by
  obtain ⟨nh, nt, hn⟩ : ∃ nh nt, n.data = nh :: nt := by
    cases hd : n.data with
    | nil => exact absurd hd hne
    | cons nh nt => exact ⟨nh, nt, rfl⟩
  have hstart : startsWithL "Action:".data (actSegment n a rest) = true :=
    startsWithL_append_self "Action:".data
      (' ' :: (n.data ++ ('[' :: (a.data ++ (']' :: rest)))))
  have hdrop : (actSegment n a rest).drop 7 =
      ' ' :: (n.data ++ ('[' :: (a.data ++ (']' :: rest)))) := rfl
  have hnh : isSpaceC nh = false :=
    isWordC_not_space (hw nh (by rw [hn]; exact List.mem_cons_self nh nt))
  have hdws : (' ' :: (n.data ++ ('[' :: (a.data ++ (']' :: rest))))).dropWhile isSpaceC =
      n.data ++ ('[' :: (a.data ++ (']' :: rest))) := by
    rw [List.dropWhile_cons_of_pos (by decide), hn, List.cons_append,
      List.dropWhile_cons_of_neg (by simp [hnh]), ← List.cons_append, ← hn]
  have htake : (n.data ++ ('[' :: (a.data ++ (']' :: rest)))).takeWhile isWordC = n.data := by
    rw [List.takeWhile_append_of_pos hw, List.takeWhile_cons_of_neg (by decide)]
    exact List.append_nil n.data
  have hdropw : ((n.data ++ ('[' :: (a.data ++ (']' :: rest)))).dropWhile
      isWordC).dropWhile isSpaceC = '[' :: (a.data ++ (']' :: rest)) := by
    rw [List.dropWhile_append_of_pos hw, List.dropWhile_cons_of_neg (by decide),
      List.dropWhile_cons_of_neg (by decide)]
  have hcont : (a.data ++ (']' :: rest)).contains ']' = true := by simp
  have htk : (a.data ++ (']' :: rest)).takeWhile (fun c => c ≠ ']') = a.data := by
    rw [List.takeWhile_append_of_pos (by intro c hc; simp [ha c hc]),
      List.takeWhile_cons_of_neg (by simp)]
    exact List.append_nil a.data
  unfold tryActionAt
  rw [if_pos hstart, hdrop]
  dsimp only
  rw [hdws, htake, hdropw]
  rw [if_neg (by simp [hn])]
  dsimp only
  rw [if_pos rfl, if_pos hcont, htk]

theorem scanAction_cons_some {c : Char} {cs : List Char} {r : List Char × List Char}
    (h : tryActionAt (c :: cs) = some r) : scanAction (c :: cs) = some r := by
  rw [scanAction, h]

theorem scanCustomAction_cons_some {c : Char} {cs : List Char} {r : List Char × List Char}
    (h : tryCustomActionAt (c :: cs) = some r) :
    scanCustomAction (c :: cs) = some ([], r.1, r.2) := by
  rw [scanCustomAction, h]

/-- The `custom_react_agent` action-only pattern on a well-formed segment. -/
theorem tryCustomActionAt_exact (n a : String) (rest : List Char)
    (hw : ∀ c ∈ n.data, isWordC c = true)
    (hab : ∀ c ∈ a.data, c ≠ ']') (hnb : ∀ c ∈ n.data, c ≠ '[') :
    tryCustomActionAt (actSegment n a rest) = some (n.data, a.data) := by
  have hstart : startsWithCIL "Action: ".data (actSegment n a rest) = true :=
    startsWithCIL_append_self "Action: ".data
      (n.data ++ ('[' :: (a.data ++ (']' :: rest))))
  have hdrop : (actSegment n a rest).drop 8 =
      n.data ++ ('[' :: (a.data ++ (']' :: rest))) := rfl
  unfold tryCustomActionAt
  rw [if_pos hstart, hdrop]
  rw [customNameArg_through n.data hnb ('[' :: (a.data ++ (']' :: rest)))]
  have hcont : (a.data ++ (']' :: rest)).contains ']' = true := by simp
  have htk : (a.data ++ (']' :: rest)).takeWhile (fun c => c ≠ ']') = a.data := by
    rw [List.takeWhile_append_of_pos (by intro c hc; simp [hab c hc]),
      List.takeWhile_cons_of_neg (by simp)]
    exact List.append_nil a.data
  rw [show customNameArg ('[' :: (a.data ++ (']' :: rest))) =
      some ([], a.data) from by
    unfold customNameArg
    rw [if_pos rfl, if_pos hcont, htk]]
  simp only [Option.map_some', List.append_nil]
  rw [dropTrailingWs_eq_self (fun c hc => isWordC_not_space (hw c hc))]

/-- The `react_agent` numbered-action pattern on a well-formed segment. -/
theorem tryReactAt_exact (n a : String) (rest : List Char)
    (hne : n.data ≠ []) (hw : ∀ c ∈ n.data, isWordC c = true)
    (ha : ∀ c ∈ a.data, c ≠ ']') :
    tryReactAt (actSegment n a rest) = some (n.data, a.data, rest) := by
  obtain ⟨nh, nt, hn⟩ : ∃ nh nt, n.data = nh :: nt := by
    cases hd : n.data with
    | nil => exact absurd hd hne
    | cons nh nt => exact ⟨nh, nt, rfl⟩
  have hstart : startsWithL "Action".data (actSegment n a rest) = true :=
    startsWithL_append_self "Action".data
      (':' :: ' ' :: (n.data ++ ('[' :: (a.data ++ (']' :: rest)))))
  have hdrop : (actSegment n a rest).drop 6 =
      ':' :: ' ' :: (n.data ++ ('[' :: (a.data ++ (']' :: rest)))) := rfl
  have hnh : isSpaceC nh = false :=
    isWordC_not_space (hw nh (by rw [hn]; exact List.mem_cons_self nh nt))
  have hrw : ∀ c ∈ n.data, isReactNameC c = true := fun c hc => isWordC_reactName (hw c hc)
  have hdws : (' ' :: (n.data ++ ('[' :: (a.data ++ (']' :: rest))))).dropWhile isSpaceC =
      n.data ++ ('[' :: (a.data ++ (']' :: rest))) := by
    rw [List.dropWhile_cons_of_pos (by decide), hn, List.cons_append,
      List.dropWhile_cons_of_neg (by simp [hnh]), ← List.cons_append, ← hn]
  have htake : (n.data ++ ('[' :: (a.data ++ (']' :: rest)))).takeWhile isReactNameC =
      n.data := by
    rw [List.takeWhile_append_of_pos hrw, List.takeWhile_cons_of_neg (by decide)]
    exact List.append_nil n.data
  have hdropw : ((n.data ++ ('[' :: (a.data ++ (']' :: rest)))).dropWhile
      isReactNameC).dropWhile isSpaceC = '[' :: (a.data ++ (']' :: rest)) := by
    rw [List.dropWhile_append_of_pos hrw, List.dropWhile_cons_of_neg (by decide),
      List.dropWhile_cons_of_neg (by decide)]
  unfold tryReactAt
  rw [if_pos hstart, hdrop]
  rw [List.dropWhile_cons_of_neg (by decide), List.dropWhile_cons_of_neg (by decide)]
  dsimp only
  rw [if_pos rfl]
  rw [hdws, htake, hdropw]
  rw [if_neg (by simp [hn])]
  dsimp only
  rw [if_pos rfl, splitClose_exact a.data ha rest]
  rfl

theorem reactFindAll_actSegment (n a : String) (rest : List Char)
    (hne : n.data ≠ []) (hw : ∀ c ∈ n.data, isWordC c = true)
    (ha : ∀ c ∈ a.data, c ≠ ']') :
    reactFindAll (actSegment n a rest) = (n.data, a.data) :: reactFindAll rest := by
  obtain ⟨ch, ct, hact⟩ : ∃ ch ct, actSegment n a rest = ch :: ct := ⟨_, _, rfl⟩
  have h := tryReactAt_exact n a rest hne hw ha
  rw [hact] at h ⊢
  exact reactFindAll_cons' h

/-- The perfect pattern of `custom_react_agent` cannot match when the text
contains no case-insensitive `Thought: ` marker. -/
theorem scanPerfect_none_of_no_thought : ∀ (s : List Char),
    hasOccCI "Thought: ".data s = false → scanPerfect s = none
  | [], _ => rfl
  | c :: cs, h => by
    have hsw : startsWithCIL "Thought: ".data (c :: cs) = false := by
      cases hb : startsWithCIL "Thought: ".data (c :: cs) with
      | false => rfl
      | true => simp [hasOccCI, afterFirstCI, hb] at h
    have htl : hasOccCI "Thought: ".data cs = false := by
      simpa [hasOccCI, afterFirstCI, hsw] using h
    rw [scanPerfect]
    rw [show tryPerfectAt (c :: cs) = none from by
      unfold tryPerfectAt
      rw [if_neg (by simp [hsw])]]
    exact scanPerfect_none_of_no_thought cs htl

/-- The search of `ACTION_REGEX` skips a prefix that contains no `Action:` marker
and ends in a newline (no occurrence can span the boundary because the
pattern contains no newline). -/
theorem scanAction_skip_lead (V A : List Char)
    (hocc : hasOcc "Action:".data (V ++ ['\n']) = false) :
    scanAction ((V ++ ['\n']) ++ A) = scanAction A := by
  apply scanAction_append_none
  intro zs hne hzs
  unfold tryActionAt
  rw [if_neg ?_]
  intro hsw
  by_cases hlen : 7 ≤ zs.length
  · have h1 : startsWithL "Action:".data zs = true :=
      startsWithL_of_append "Action:".data zs A (by simpa using hlen) hsw
    have h2 := startsWith_false_of_hasOcc_false hocc hzs
    rw [h1] at h2
    cases h2
  · have hpre : zs <+: "Action:".data :=
      prefix_of_startsWith "Action:".data zs A (by simp; omega) hsw
    have hmem : '\n' ∈ zs := suffix_last_mem hzs hne
    have hm2 : '\n' ∈ "Action:".data := hpre.subset hmem
    exact absurd hm2 (by decide)

/-! ### Step lemmas for `OptimalReActAgent.stream` -/

theorem optStreamGo_succ (cfg : OptCfg) (oracle : Nat → String) (i r : Nat)
    (hist : List Msg) :
    optStreamGo cfg oracle i (r + 1) hist =
      if (optIterStep cfg i (oracle (i - 1))).2 then (optIterStep cfg i (oracle (i - 1))).1
      else (optIterStep cfg i (oracle (i - 1))).1 ++
        optStreamGo cfg oracle (i + 1) r (optIterHist cfg (oracle (i - 1)) hist) := rfl

theorem optIterStep_finish (cfg : OptCfg) (i : Nat) (out : String)
    (t : Option String) (aOpt : Option String)
    (h : parseAgentOutput out = (t, some "finish", aOpt)) :
    optIterStep cfg i out =
      (Ev.info (optIterInfo i cfg.maxIterations) :: thoughtEvs t ++
        [Ev.finalAnswer (finishContent aOpt out)], true) := by
  unfold optIterStep
  rw [h]
  simp

theorem optIterStep_noAction (cfg : OptCfg) (i : Nat) (out : String)
    (t : Option String) (aOpt : Option String)
    (h : parseAgentOutput out = (t, none, aOpt)) :
    optIterStep cfg i out = optNoActionStep cfg i t out := by
  unfold optIterStep
  rw [h]

theorem optIterStep_notFound (cfg : OptCfg) (i : Nat) (out : String)
    (t : Option String) (n a : String)
    (h : parseAgentOutput out = (t, some n, some a)) (hfin : n ≠ "finish") (hne : n ≠ "")
    (hl : optLookup cfg n = none) :
    optIterStep cfg i out =
      (Ev.info (optIterInfo i cfg.maxIterations) :: thoughtEvs t ++
        [Ev.actionInput ("Action: " ++ n ++ "[" ++ a ++ "]"),
         Ev.error (toolNotFoundEventMsg n)], true) := by
  unfold optIterStep
  rw [h]
  simp [hfin, hne, hl]

theorem optIterStep_execErr (cfg : OptCfg) (i : Nat) (out : String)
    (t : Option String) (n a : String) (f : String → Except String String) (e : String)
    (h : parseAgentOutput out = (t, some n, some a)) (hfin : n ≠ "finish") (hne : n ≠ "")
    (hl : optLookup cfg n = some f) (hf : f a = Except.error e) :
    optIterStep cfg i out =
      (Ev.info (optIterInfo i cfg.maxIterations) :: thoughtEvs t ++
        [Ev.actionInput ("Action: " ++ n ++ "[" ++ a ++ "]"),
         Ev.error (toolExecEventMsg n a e)], true) := by
  unfold optIterStep
  rw [h]
  simp [hfin, hne, hl, hf]

theorem optIterStep_execOk (cfg : OptCfg) (i : Nat) (out : String)
    (t : Option String) (n a : String) (f : String → Except String String) (o : String)
    (h : parseAgentOutput out = (t, some n, some a)) (hfin : n ≠ "finish") (hne : n ≠ "")
    (hl : optLookup cfg n = some f) (hf : f a = Except.ok o) :
    optIterStep cfg i out =
      (if !cfg.sparseReasoning && t.isNone then
        (Ev.info (optIterInfo i cfg.maxIterations) :: thoughtEvs t ++
          [Ev.actionInput ("Action: " ++ n ++ "[" ++ a ++ "]"),
           Ev.observation (stripS o), Ev.error (denseViolationMsg out)], true)
      else
        (Ev.info (optIterInfo i cfg.maxIterations) :: thoughtEvs t ++
          [Ev.actionInput ("Action: " ++ n ++ "[" ++ a ++ "]"),
           Ev.observation (stripS o)], false)) := by
  unfold optIterStep
  rw [h]
  simp [hfin, hne, hl, hf]

/-! ### Claim theorems -/

/-- Claim C2 (amended): for every window size `W ≥ 1` and non-finish
signature `s`, the Loop-Guard reports `ok` only on the **first** issue and
`loop-detected` from the second repeat on (the window already contains the
signature after one `ok`), for any `W`; the `finish` signature never triggers
loop-detected. -/
theorem loop_guard_second_repeat_detected :
    (∀ (w : Nat) (sig : String × String) (k : Nat), 1 ≤ w → sig.1 ≠ "finish" → 1 ≤ k →
      lgRepeat w sig k = false :: List.replicate (k - 1) true) ∧
    (∀ (w : Nat) (hist : List (String × String)) (sig : String × String),
      sig.1 = "finish" → (lgCheck w hist sig).1 = false) := by
  constructor
  · intro w sig k hw hfin hk
    obtain ⟨k0, rfl⟩ : ∃ k0, k = k0 + 1 := ⟨k - 1, by omega⟩
    have hrep : ∀ m (hist : List (String × String)), sig ∈ hist →
        lgRun w hist (List.replicate m sig) = List.replicate m true := by
      intro m
      induction m with
      | zero => intro hist _; rfl
      | succ m ih =>
        intro hist hc
        rw [List.replicate_succ, lgRun]
        have hcond : lgCheck w hist sig = (true, hist) := by
          unfold lgCheck
          rw [if_pos (by simp [hfin, hc])]
        rw [hcond, List.replicate_succ, ih hist hc]
    rw [lgRepeat, List.replicate_succ, lgRun]
    have h1 : lgCheck w [] sig = (false, [sig]) := by
      unfold lgCheck
      rw [if_neg (by simp)]
      unfold dequePush
      simp only [List.nil_append, List.length_cons, List.length_nil]
      rw [show 0 + 1 - w = 0 from by omega, List.drop_zero]
    rw [h1]
    simp only [Nat.add_sub_cancel]
    rw [hrep k0 [sig] (List.mem_singleton_self sig)]
  · intro w hist sig hfin
    unfold lgCheck
    rw [if_neg (by simp [hfin])]

/-- Witness for C2's amended theorem at window size 3 and a concrete
signature. -/
theorem loop_guard_second_repeat_detected_witness :
    lgRepeat 3 ("search", "foo") 4 = false :: List.replicate 3 true ∧
    (lgCheck 3 [("finish", "x")] ("finish", "x")).1 = false :=
  ⟨loop_guard_second_repeat_detected.1 3 ("search", "foo") 4 (by decide) (by decide)
    (by decide),
   loop_guard_second_repeat_detected.2 3 [("finish", "x")] ("finish", "x") rfl⟩

/-- Claim C2 counterexample: with window size `W = 2` the claim predicts
`[ok, ok, loop-detected]` for three consecutive issues of the same non-finish
signature, but the code reports loop-detected already on the second issue. -/
theorem loop_guard_window_two_cex :
    lgRepeat 2 ("search", "foo") 3 = [false, true, true] ∧
    lgRepeat 2 ("search", "foo") 3 ≠ [false, false, true] := by
  constructor
  · decide
  · decide

/-- Claim C10 (confirmed): when the parsed step resolves to `finish` with an
empty action argument, `final_answer = action_input or llm_output` falls back
to the entire raw model output, so the emitted `final_answer` event carries
the whole raw text, not the empty string. -/
theorem finish_empty_argument_full_output (cfg : OptCfg) (oracle : Nat → String)
    (i r : Nat) (hist : List Msg) (t : Option String)
    (h : parseAgentOutput (oracle (i - 1)) = (t, some "finish", some "")) :
    optStreamGo cfg oracle i (r + 1) hist =
      Ev.info (optIterInfo i cfg.maxIterations) :: thoughtEvs t ++
        [Ev.finalAnswer (oracle (i - 1))] := by
  rw [optStreamGo_succ, optIterStep_finish cfg i (oracle (i - 1)) t (some "") h]
  simp [finishContent]

/-- Witness for C10 at the concrete model output `Action: finish[]`. -/
theorem finish_empty_argument_full_output_witness :
    optStreamGo ⟨[], 3, false, "SP"⟩ (fun _ => "Action: finish[]") 1 3 [] =
      [Ev.info (optIterInfo 1 3), Ev.finalAnswer "Action: finish[]"] := by
  have h := finish_empty_argument_full_output ⟨[], 3, false, "SP"⟩
    (fun _ => "Action: finish[]") 1 2 [] none (by decide)
  simpa [thoughtEvs] using h

/-! ### Shape lemmas: every iteration either continues with only
non-terminal events, or halts with exactly one terminal event at the end. -/

theorem thoughtEvs_nonterm (t : Option String) :
    ∀ e ∈ thoughtEvs t, isTermEv e = false := by
  intro e he
  cases t with
  | none => cases he
  | some s =>
    by_cases h : s = ""
    · rw [thoughtEvs, if_pos h] at he
      cases he
    · rw [thoughtEvs, if_neg h] at he
      simp only [List.mem_singleton] at he
      subst he
      rfl

theorem nonterm_nil : ∀ e ∈ ([] : List Ev), isTermEv e = false := by
  intro e he
  cases he

theorem nonterm_act (x : String) : ∀ e ∈ [Ev.actionInput x], isTermEv e = false := by
  intro e he
  simp only [List.mem_singleton] at he
  subst he
  rfl

theorem nonterm_act_obs (x y : String) :
    ∀ e ∈ [Ev.actionInput x, Ev.observation y], isTermEv e = false := by
  intro e he
  simp only [List.mem_cons, List.not_mem_nil, or_false] at he
  rcases he with rfl | rfl <;> rfl

/-- The non-terminal block at the front of every iteration's events. -/
theorem allNonterm_block (s : String) (t : Option String) (more : List Ev)
    (hm : ∀ e ∈ more, isTermEv e = false) :
    (Ev.info s :: thoughtEvs t ++ more).all (fun e => !isTermEv e) = true := by
  simp only [List.all_cons, List.all_append, Bool.and_eq_true, List.all_eq_true]
  refine ⟨⟨rfl, fun x hx => ?_⟩, fun x hx => ?_⟩
  · simp [thoughtEvs_nonterm t x hx]
  · simp [hm x hx]

theorem optNoActionStep_shape (cfg : OptCfg) (i : Nat) (t : Option String) (out : String) :
    ((optNoActionStep cfg i t out).2 = false →
      (optNoActionStep cfg i t out).1.all (fun e => !isTermEv e) = true) ∧
    ((optNoActionStep cfg i t out).2 = true →
      ∃ pre e, (optNoActionStep cfg i t out).1 = pre ++ [e] ∧ isTermEv e = true ∧
        pre.all (fun x => !isTermEv x) = true) := by
  unfold optNoActionStep
  by_cases hs : cfg.sparseReasoning
  · rw [if_pos hs]
    cases t with
    | none =>
      refine ⟨fun h => by simp at h, fun _ => ?_⟩
      exact ⟨Ev.info (optIterInfo i cfg.maxIterations) :: thoughtEvs none,
        Ev.error (sparseViolationMsg out), rfl, rfl,
        by simpa using allNonterm_block (optIterInfo i cfg.maxIterations) none [] nonterm_nil⟩
    | some ts =>
      refine ⟨fun _ => ?_, fun h => by simp at h⟩
      simpa using allNonterm_block (optIterInfo i cfg.maxIterations) (some ts) [] nonterm_nil
  · rw [if_neg hs]
    refine ⟨fun h => by simp at h, fun _ => ?_⟩
    exact ⟨Ev.info (optIterInfo i cfg.maxIterations) :: thoughtEvs t,
      Ev.error (denseViolationMsg out), rfl, rfl,
      by simpa using allNonterm_block (optIterInfo i cfg.maxIterations) t [] nonterm_nil⟩

theorem optIterStep_shape (cfg : OptCfg) (i : Nat) (out : String) :
    ((optIterStep cfg i out).2 = false →
      (optIterStep cfg i out).1.all (fun e => !isTermEv e) = true) ∧
    ((optIterStep cfg i out).2 = true →
      ∃ pre e, (optIterStep cfg i out).1 = pre ++ [e] ∧ isTermEv e = true ∧
        pre.all (fun x => !isTermEv x) = true) := by
  rcases hp : parseAgentOutput out with ⟨t, nOpt, aOpt⟩
  rcases nOpt with _ | n
  · rw [optIterStep_noAction cfg i out t aOpt hp]
    exact optNoActionStep_shape cfg i t out
  · by_cases hfin : n = "finish"
    · subst hfin
      rw [optIterStep_finish cfg i out t aOpt hp]
      refine ⟨fun h => by simp at h, fun _ => ?_⟩
      exact ⟨Ev.info (optIterInfo i cfg.maxIterations) :: thoughtEvs t,
        Ev.finalAnswer (finishContent aOpt out), rfl, rfl,
        by simpa using allNonterm_block (optIterInfo i cfg.maxIterations) t [] nonterm_nil⟩
    · rcases aOpt with _ | a
      · have hred : optIterStep cfg i out = optNoActionStep cfg i t out := by
          unfold optIterStep
          rw [hp]
          simp [hfin]
        rw [hred]
        exact optNoActionStep_shape cfg i t out
      · by_cases hne : n = ""
        · have hred : optIterStep cfg i out = optNoActionStep cfg i t out := by
            unfold optIterStep
            rw [hp]
            simp [hfin, hne]
          rw [hred]
          exact optNoActionStep_shape cfg i t out
        · cases hl : optLookup cfg n with
          | none =>
            rw [optIterStep_notFound cfg i out t n a hp hfin hne hl]
            refine ⟨fun h => by simp at h, fun _ => ?_⟩
            refine ⟨Ev.info (optIterInfo i cfg.maxIterations) :: thoughtEvs t ++
              [Ev.actionInput ("Action: " ++ n ++ "[" ++ a ++ "]")],
              Ev.error (toolNotFoundEventMsg n), by simp, rfl,
              allNonterm_block _ t _ (nonterm_act _)⟩
          | some f =>
            cases hf : f a with
            | error e =>
              rw [optIterStep_execErr cfg i out t n a f e hp hfin hne hl hf]
              refine ⟨fun h => by simp at h, fun _ => ?_⟩
              refine ⟨Ev.info (optIterInfo i cfg.maxIterations) :: thoughtEvs t ++
                [Ev.actionInput ("Action: " ++ n ++ "[" ++ a ++ "]")],
                Ev.error (toolExecEventMsg n a e), by simp, rfl,
                allNonterm_block _ t _ (nonterm_act _)⟩
            | ok o =>
              rw [optIterStep_execOk cfg i out t n a f o hp hfin hne hl hf]
              by_cases hden : (!cfg.sparseReasoning && t.isNone) = true
              · rw [if_pos hden]
                refine ⟨fun h => by simp at h, fun _ => ?_⟩
                refine ⟨Ev.info (optIterInfo i cfg.maxIterations) :: thoughtEvs t ++
                  [Ev.actionInput ("Action: " ++ n ++ "[" ++ a ++ "]"),
                   Ev.observation (stripS o)],
                  Ev.error (denseViolationMsg out), by simp, rfl,
                  allNonterm_block _ t _ (nonterm_act_obs _ _)⟩
              · rw [if_neg hden]
                refine ⟨fun _ => ?_, fun h => by simp at h⟩
                exact allNonterm_block _ t _ (nonterm_act_obs _ _)

theorem optGo_unique_terminal (cfg : OptCfg) (oracle : Nat → String) :
    ∀ (r i : Nat) (hist : List Msg),
      ∃ pre e, optStreamGo cfg oracle i r hist = pre ++ [e] ∧ isTermEv e = true ∧
        pre.all (fun x => !isTermEv x) = true := by
  intro r
  induction r with
  | zero =>
    intro i hist
    exact ⟨[], Ev.error (maxIterMsg cfg.maxIterations), rfl, rfl, rfl⟩
  | succ r ih =>
    intro i hist
    rw [optStreamGo_succ]
    cases hh : (optIterStep cfg i (oracle (i - 1))).2 with
    | true =>
      rw [if_pos rfl]
      exact (optIterStep_shape cfg i (oracle (i - 1))).2 hh
    | false =>
      rw [if_neg (by simp)]
      obtain ⟨pre, e, heq, hterm, hpre⟩ := ih (i + 1) (optIterHist cfg (oracle (i - 1)) hist)
      refine ⟨(optIterStep cfg i (oracle (i - 1))).1 ++ pre, e, ?_, hterm, ?_⟩
      · rw [heq, List.append_assoc]
      · rw [List.all_append, (optIterStep_shape cfg i (oracle (i - 1))).1 hh, hpre]
        rfl

/-- Claim C1 (amended): `OptimalReActAgent.stream` always produces exactly
one terminal event — a `final_answer` or an `error`, never both, never
neither — as the last event of the stream; nothing follows it.  (The
`react_agent.py` variant instead emits the final answer character by
character, one `final_answer` event per character — see the
counterexample.) -/
theorem optimal_stream_unique_terminal (cfg : OptCfg) (q : String)
    (oracle : Nat → String) :
    ∃ pre e, optStream cfg q oracle = pre ++ [e] ∧ isTermEv e = true ∧
      pre.all (fun x => !isTermEv x) = true :=
  optGo_unique_terminal cfg oracle cfg.maxIterations 1
    [Msg.system cfg.systemPrompt, Msg.user q]

/-- Claim C1 counterexample: the `react_agent.py` stream for a two-character
final answer emits two `final_answer` events (and no error), violating
"exactly one final-answer event". -/
theorem react_stream_two_final_events_cex :
    ((reactRun [Msg.system "SP"] [] 2 "hello"
        (fun _ => "Thought 1: t\nAction 1: finish[hi]")).evs.filter isFinalEv).length = 2 ∧
    ((reactRun [Msg.system "SP"] [] 2 "hello"
        (fun _ => "Thought 1: t\nAction 1: finish[hi]")).evs.filter isErrorEv).length = 0 := by
  constructor
  · decide
  · decide

/-- Claim C4 (amended): under the dense reasoning policy, an iteration whose
parsed step has a reasoning segment but no parsed action terminates the loop
with the format-violation error, and an iteration whose parsed step has a
successfully dispatched non-finish action but no reasoning segment also
terminates with the format-violation error.  (The carve-outs forced by the
counterexample: a `finish` action without reasoning emits a `final_answer`
instead, and a failing dispatch surfaces a tool error instead.) -/
theorem dense_policy_violation_terminates (cfg : OptCfg) (oracle : Nat → String)
    (i r : Nat) (hist : List Msg) (hd : cfg.sparseReasoning = false) :
    (∀ t, parseAgentOutput (oracle (i - 1)) = (some t, none, none) →
      optStreamGo cfg oracle i (r + 1) hist =
        Ev.info (optIterInfo i cfg.maxIterations) :: thoughtEvs (some t) ++
          [Ev.error (denseViolationMsg (oracle (i - 1)))]) ∧
    (∀ n a f o, parseAgentOutput (oracle (i - 1)) = (none, some n, some a) →
      n ≠ "finish" → n ≠ "" → optLookup cfg n = some f → f a = Except.ok o →
      optStreamGo cfg oracle i (r + 1) hist =
        [Ev.info (optIterInfo i cfg.maxIterations),
         Ev.actionInput ("Action: " ++ n ++ "[" ++ a ++ "]"),
         Ev.observation (stripS o),
         Ev.error (denseViolationMsg (oracle (i - 1)))]) := by
  constructor
  · intro t h
    rw [optStreamGo_succ, optIterStep_noAction cfg i (oracle (i - 1)) (some t) none h]
    simp [optNoActionStep, hd]
  · intro n a f o h hfin hne hl hf
    rw [optStreamGo_succ, optIterStep_execOk cfg i (oracle (i - 1)) none n a f o h hfin hne hl hf]
    simp [hd, thoughtEvs]

/-- Witness for C4's amended theorem: a thought-only step and an
action-only step, both under the dense policy. -/
theorem dense_policy_violation_terminates_witness :
    optStreamGo ⟨[("echo", fun s => Except.ok s)], 3, false, "SP"⟩
        (fun _ => "Thought: only thinking") 1 3 [] =
      [Ev.info (optIterInfo 1 3), Ev.thought "only thinking",
       Ev.error (denseViolationMsg "Thought: only thinking")] ∧
    optStreamGo ⟨[("echo", fun s => Except.ok s)], 3, false, "SP"⟩
        (fun _ => "Action: echo[hi]") 1 3 [] =
      [Ev.info (optIterInfo 1 3), Ev.actionInput "Action: echo[hi]",
       Ev.observation "hi", Ev.error (denseViolationMsg "Action: echo[hi]")] := by
  constructor
  · have h := (dense_policy_violation_terminates ⟨[("echo", fun s => Except.ok s)], 3, false, "SP"⟩
      (fun _ => "Thought: only thinking") 1 2 [] rfl).1 "only thinking" (by decide)
    simpa [thoughtEvs] using h
  · have h := (dense_policy_violation_terminates ⟨[("echo", fun s => Except.ok s)], 3, false, "SP"⟩
      (fun _ => "Action: echo[hi]") 1 2 [] rfl).2 "echo" "hi" (fun s => Except.ok s) "hi"
      (by decide) (by decide) (by decide) rfl rfl
    simpa using h

/-- Claim C4 counterexample: under the dense policy the output
`Action: finish[done]` has a resolvable action and no reasoning segment, yet
the loop emits a `final_answer` and no error event at all. -/
theorem dense_finish_without_thought_cex :
    optStream ⟨[], 3, false, "SP"⟩ "q" (fun _ => "Action: finish[done]") =
      [Ev.info (optIterInfo 1 3), Ev.finalAnswer "done"] ∧
    (optStream ⟨[], 3, false, "SP"⟩ "q" (fun _ => "Action: finish[done]")).filter
      isErrorEv = [] := by
  constructor
  · decide
  · decide

/-- Claim C7 (amended): in the baseline `OptimalReActAgent`, dispatching an
action whose name is absent from the registry terminates the loop with a
single terminal error surfacing the unknown name — no observation event, no
retry, and the failure is never fed back to the model.  The
`custom_react_agent` variant instead returns the failure as an observation
string that is fed back to the model and the loop continues (see the
counterexample). -/
theorem unknown_tool_fatal_baseline :
    (∀ (cfg : OptCfg) (oracle : Nat → String) (i r : Nat) (hist : List Msg)
        (t : Option String) (n a : String),
      parseAgentOutput (oracle (i - 1)) = (t, some n, some a) → n ≠ "finish" → n ≠ "" →
      optLookup cfg n = none →
      optStreamGo cfg oracle i (r + 1) hist =
        Ev.info (optIterInfo i cfg.maxIterations) :: thoughtEvs t ++
          [Ev.actionInput ("Action: " ++ n ++ "[" ++ a ++ "]"),
           Ev.error (toolNotFoundEventMsg n)]) ∧
    (∀ (tools : ToolReg) (n a : String), dictLookup tools n = none →
      customExec tools n a =
        "Error: Tool '" ++ n ++ "' not found. Available tools: " ++
          pyListRepr (tools.map (fun p => p.1)).eraseDups) := by
  constructor
  · intro cfg oracle i r hist t n a h hfin hne hl
    rw [optStreamGo_succ, optIterStep_notFound cfg i (oracle (i - 1)) t n a h hfin hne hl]
    simp
  · intro tools n a hl
    unfold customExec
    rw [hl]

/-- Witness for C7's amended theorem at a concrete unknown tool name. -/
theorem unknown_tool_fatal_baseline_witness :
    optStreamGo ⟨[], 2, false, "SP"⟩ (fun _ => "Thought: t\nAction: ghost[x]") 1 2 [] =
      [Ev.info (optIterInfo 1 2), Ev.thought "t\nAction: ghost[x]",
       Ev.actionInput "Action: ghost[x]", Ev.error (toolNotFoundEventMsg "ghost")] ∧
    customExec [] "ghost" "x" = "Error: Tool 'ghost' not found. Available tools: []" := by
  constructor
  · have h := unknown_tool_fatal_baseline.1 ⟨[], 2, false, "SP"⟩
      (fun _ => "Thought: t\nAction: ghost[x]") 1 1 [] (some "t\nAction: ghost[x]")
      "ghost" "x" (by decide) (by decide) (by decide) rfl
    simpa [thoughtEvs] using h
  · have h := unknown_tool_fatal_baseline.2 [] "ghost" "x" rfl
    simpa [pyListRepr] using h

/-- Claim C7 counterexample: in `custom_react_agent.py` an unknown tool name
produces an observation event (the error string), the failure is appended to
the conversation as a `ToolMessage` the model reads next turn, no error event
is emitted, and the loop continues to a final answer. -/
theorem custom_unknown_tool_fed_back_cex :
    (customRun ⟨[], []⟩ ⟨[], 5, 3, "CP"⟩ "q"
        (fun k => if k = 0 then "Thought: t\nAction: ghost[x]"
                  else "Thought: done\nAction: finish[ok]")).evs =
      [Ev.thoughtAction "Thought: t\nAction: ghost[x]",
       Ev.observation "Error: Tool 'ghost' not found. Available tools: []",
       Ev.thoughtAction "Thought: done\nAction: finish[ok]",
       Ev.finalAnswer "ok"] ∧
    (customRun ⟨[], []⟩ ⟨[], 5, 3, "CP"⟩ "q"
        (fun k => if k = 0 then "Thought: t\nAction: ghost[x]"
                  else "Thought: done\nAction: finish[ok]")).evs.filter isErrorEv = [] ∧
    Msg.toolMsg "call_ghost_1" "ghost" "Error: Tool 'ghost' not found. Available tools: []" ∈
      (customRun ⟨[], []⟩ ⟨[], 5, 3, "CP"⟩ "q"
        (fun k => if k = 0 then "Thought: t\nAction: ghost[x]"
                  else "Thought: done\nAction: finish[ok]")).state.msgs := by
  refine ⟨by decide, by decide, by decide⟩

theorem optGo_exhaust (cfg : OptCfg) (oracle : Nat → String) :
    ∀ (r i : Nat) (hist : List Msg),
      (∀ k, k < r → (optIterStep cfg (i + k) (oracle (i + k - 1))).2 = false) →
      ∃ pre, optStreamGo cfg oracle i r hist =
        pre ++ [Ev.error (maxIterMsg cfg.maxIterations)] ∧
        pre.all (fun x => !isTermEv x) = true := by
  intro r
  induction r with
  | zero =>
    intro i hist _
    exact ⟨[], rfl, rfl⟩
  | succ r ih =>
    intro i hist h
    have h0 : (optIterStep cfg i (oracle (i - 1))).2 = false := by
      have hh := h 0 (Nat.succ_pos r)
      simpa using hh
    rw [optStreamGo_succ, if_neg (by simp [h0])]
    obtain ⟨pre, heq, hpre⟩ := ih (i + 1) (optIterHist cfg (oracle (i - 1)) hist)
      (fun k hk => by
        have hh := h (k + 1) (by omega)
        have he : i + (k + 1) = i + 1 + k := by omega
        rw [he] at hh
        exact hh)
    refine ⟨(optIterStep cfg i (oracle (i - 1))).1 ++ pre, ?_, ?_⟩
    · rw [heq, List.append_assoc]
    · rw [List.all_append, (optIterStep_shape cfg i (oracle (i - 1))).1 h0, hpre]
      rfl

/-- Claim C8 (amended): with budget `N`, when no iteration halts (no finish
and no fatal condition) within `N` iterations, `OptimalReActAgent.stream`
ends with exactly one terminal `error` event whose message carries the
configured budget value, and no events follow it.  (The `react_agent.py`
variant emits the analogous exhaustion error but its message omits the budget
value — see the counterexample.) -/
theorem budget_exhaustion_single_error (cfg : OptCfg) (q : String)
    (oracle : Nat → String)
    (h : ∀ k, k < cfg.maxIterations → (optIterStep cfg (k + 1) (oracle k)).2 = false) :
    ∃ pre, optStream cfg q oracle = pre ++ [Ev.error (maxIterMsg cfg.maxIterations)] ∧
      pre.all (fun x => !isTermEv x) = true ∧
      hasOccStr (toString cfg.maxIterations) (maxIterMsg cfg.maxIterations) = true := by
  obtain ⟨pre, heq, hpre⟩ := optGo_exhaust cfg oracle cfg.maxIterations 1
    [Msg.system cfg.systemPrompt, Msg.user q] (fun k hk => by
      have hh := h k hk
      have he : 1 + k = k + 1 := by omega
      rw [he]
      simpa using hh)
  refine ⟨pre, heq, hpre, ?_⟩
  have hs := startsWithL_append_self (toString cfg.maxIterations).data
    (") reached without finding a Final Answer. Agent stopped.").data
  have ho := hasOcc_of_suffix hs ("Max iterations (").data
  simpa [hasOccStr, maxIterMsg, String.data_append, List.append_assoc] using ho

/-- Witness for C8's amended theorem with budget 2 and an oracle that always
issues the same successfully dispatched tool action. -/
theorem budget_exhaustion_single_error_witness :
    ∃ pre, optStream ⟨[("echo", fun s => Except.ok s)], 2, false, "SP"⟩ "q"
        (fun _ => "Thought: t\nAction: echo[hi]") =
      pre ++ [Ev.error (maxIterMsg 2)] ∧
      pre.all (fun x => !isTermEv x) = true ∧
      hasOccStr (toString 2) (maxIterMsg 2) = true :=
  budget_exhaustion_single_error ⟨[("echo", fun s => Except.ok s)], 2, false, "SP"⟩ "q"
    (fun _ => "Thought: t\nAction: echo[hi]") (by decide)

/-- Claim C5 (amended): for a raw text ending in a well-formed trailing
`Thought:`/`Action: name[arg]` pair, `_parse_agent_output` returns the action
name exactly and the argument whitespace-trimmed, and the step is final iff
the name is `finish`; the reasoning field however is **not** the thought text
alone but the entire remainder after the `Thought:` marker — it includes the
action segment (the `THOUGHT_REGEX` group runs to the end of the text). -/
theorem parse_trailing_pair_fields (t n a : String)
    (hne : n.data ≠ []) (hw : ∀ c ∈ n.data, isWordC c = true)
    (ha : ∀ c ∈ a.data, c ≠ '[' ∧ c ≠ ']')
    (hfa : hasOcc "Final Answer:".data (trailingPairText t n a).data = false)
    (hth : hasOcc "Action:".data ("Thought: " ++ t ++ "\n").data = false) :
    parseAgentOutput (trailingPairText t n a) =
      (some (stripS (t ++ "\nAction: " ++ n ++ "[" ++ a ++ "]")), some n,
        some (stripS a)) ∧
    ((parseAgentOutput (trailingPairText t n a)).2.1 = some "finish" ↔ n = "finish") := by
  have e1 : ("\nAction: ".data : List Char) = '\n' :: "Action: ".data := rfl
  have e2 : ("[".data : List Char) = ['['] := rfl
  have e3 : ("]".data : List Char) = [']'] := rfl
  have e4 : ("\n".data : List Char) = ['\n'] := rfl
  have htxt : (trailingPairText t n a).data =
      "Thought: ".data ++ (t.data ++ ('\n' :: actSegment n a [])) := by
    simp only [trailingPairText, actSegment, String.data_append, e1, e2, e3,
      List.append_assoc, List.cons_append, List.singleton_append, List.nil_append]
  have hU : hasOcc "Action:".data (("Thought: " ++ t).data ++ ['\n']) = false := by
    have he : ("Thought: " ++ t ++ "\n").data = ("Thought: " ++ t).data ++ ['\n'] := by
      simp only [String.data_append, e4]
    rwa [he] at hth
  have hVassoc : ("Thought: ".data ++ (t.data ++ ('\n' :: actSegment n a []))) =
      ((("Thought: " ++ t).data ++ ['\n']) ++ actSegment n a []) := by
    simp only [String.data_append, List.append_assoc, List.singleton_append,
      List.cons_append, List.nil_append]
  have hscan : scanAction (trailingPairText t n a).data = some (n.data, a.data) := by
    rw [htxt, hVassoc, scanAction_skip_lead _ _ hU]
    exact scanAction_cons_some
      (tryActionAt_exact n a [] hne hw (fun c hc => (ha c hc).2))
  have hfag : finalAnswerGroup (trailingPairText t n a).data = none := by
    unfold finalAnswerGroup
    cases haf : afterFirst "Final Answer:".data (trailingPairText t n a).data with
    | none => rfl
    | some g =>
      exfalso
      unfold hasOcc at hfa
      rw [haf] at hfa
      simp at hfa
  have hsw : startsWithL "Thought:".data (trailingPairText t n a).data = true := by
    rw [htxt]
    exact startsWithL_append_self "Thought:".data
      (' ' :: (t.data ++ ('\n' :: actSegment n a [])))
  have hdrop8 : (trailingPairText t n a).data.drop 8 =
      ' ' :: (t.data ++ ('\n' :: actSegment n a [])) := by
    rw [htxt]
    rfl
  have htg : thoughtGroup (trailingPairText t n a).data =
      some ((t.data ++ ('\n' :: actSegment n a [])).dropWhile isSpaceC) := by
    unfold thoughtGroup
    rw [afterFirst_of_startsWith hsw]
    rw [show ("Thought:".data : List Char).length = 8 from rfl, hdrop8]
    rw [Option.map_some', List.dropWhile_cons_of_pos (by decide)]
  have htail : (t ++ "\nAction: " ++ n ++ "[" ++ a ++ "]").data =
      t.data ++ ('\n' :: actSegment n a []) := by
    simp only [actSegment, String.data_append, e1, e2, e3, List.append_assoc,
      List.cons_append, List.singleton_append, List.nil_append]
  have hmain : parseAgentOutput (trailingPairText t n a) =
      (some (stripS (t ++ "\nAction: " ++ n ++ "[" ++ a ++ "]")), some n,
        some (stripS a)) := by
    unfold parseAgentOutput
    rw [hfag, hscan, htg]
    have hthc : stripL ((t.data ++ ('\n' :: actSegment n a [])).dropWhile isSpaceC) =
        stripL (t ++ "\nAction: " ++ n ++ "[" ++ a ++ "]").data := by
      rw [stripL_dropWhile, htail]
    have hnn : stripL n.data = n.data :=
      stripL_eq_self (fun c hc => isWordC_not_space (hw c hc))
    simp only [Option.map_some', stripS, hthc, hnn]
  refine ⟨hmain, ?_⟩
  rw [hmain]
  simp

/-- Witness for C5's amended theorem at a concrete trailing pair. -/
theorem parse_trailing_pair_fields_witness :
    parseAgentOutput (trailingPairText "I think" "calculate" "2+2") =
      (some (stripS ("I think" ++ "\nAction: " ++ "calculate" ++ "[" ++ "2+2" ++ "]")),
        some "calculate", some (stripS "2+2")) ∧
    ((parseAgentOutput (trailingPairText "I think" "calculate" "2+2")).2.1 =
        some "finish" ↔ "calculate" = "finish") :=
  parse_trailing_pair_fields "I think" "calculate" "2+2" (by decide) (by decide)
    (by decide) (by decide) (by decide)

/-- Claim C5 counterexample: on `Thought: T\nAction: calculate[2+2]` the
parser's reasoning field is the whole remainder after `Thought:` — including
the action line — not the thought text `T` alone. -/
theorem parse_reasoning_includes_action_cex :
    parseAgentOutput "Thought: T\nAction: calculate[2+2]" =
      (some "T\nAction: calculate[2+2]", some "calculate", some "2+2") ∧
    (some "T\nAction: calculate[2+2]" : Option String) ≠ some "T" := by
  constructor
  · decide
  · decide

/-- Claim C3 (amended): on a text with two `name[arg]` occurrences and no
exact trailing ReAct pattern, the action-anywhere fallbacks of
`OptimalReActAgent._parse_agent_output` and of `custom_react_agent`'s
`_parse_action` select the **first** occurrence (`re.search`); only
`react_agent.py`'s extraction (`findall(...)[-1]`) selects the last. -/
theorem parse_fallback_first_occurrence (n1 a1 n2 a2 : String)
    (hne1 : n1.data ≠ []) (hw1 : ∀ c ∈ n1.data, isWordC c = true)
    (hne2 : n2.data ≠ []) (hw2 : ∀ c ∈ n2.data, isWordC c = true)
    (ha1 : ∀ c ∈ a1.data, c ≠ '[' ∧ c ≠ ']')
    (ha2 : ∀ c ∈ a2.data, c ≠ '[' ∧ c ≠ ']')
    (hfa : hasOcc "Final Answer:".data (twoActionText n1 a1 n2 a2).data = false)
    (hth : hasOccCI "Thought: ".data (twoActionText n1 a1 n2 a2).data = false) :
    (parseAgentOutput (twoActionText n1 a1 n2 a2)).2 = (some n1, some (stripS a1)) ∧
    (customParseAction (twoActionText n1 a1 n2 a2)).map (fun r => (r.2.1, r.2.2)) =
      some (n1, stripS a1) ∧
    reactExtract (twoActionText n1 a1 n2 a2) =
      Except.ok (twoActionText n1 a1 n2 a2, n2, stripS a2) := by
  have e1 : ("]\nAction: ".data : List Char) = ']' :: '\n' :: "Action: ".data := rfl
  have e2 : ("[".data : List Char) = ['['] := rfl
  have e3 : ("]".data : List Char) = [']'] := rfl
  have htxt : (twoActionText n1 a1 n2 a2).data =
      actSegment n1 a1 ('\n' :: actSegment n2 a2 []) := by
    simp only [twoActionText, actSegment, String.data_append, e1, e2, e3,
      List.append_assoc, List.cons_append, List.singleton_append, List.nil_append]
  have hn1w : stripL n1.data = n1.data :=
    stripL_eq_self (fun c hc => isWordC_not_space (hw1 c hc))
  have hn2w : stripL n2.data = n2.data :=
    stripL_eq_self (fun c hc => isWordC_not_space (hw2 c hc))
  have hfag : finalAnswerGroup (twoActionText n1 a1 n2 a2).data = none := by
    unfold finalAnswerGroup
    cases haf : afterFirst "Final Answer:".data (twoActionText n1 a1 n2 a2).data with
    | none => rfl
    | some g =>
      exfalso
      unfold hasOcc at hfa
      rw [haf] at hfa
      simp at hfa
  have hscan : scanAction (twoActionText n1 a1 n2 a2).data = some (n1.data, a1.data) := by
    rw [htxt]
    exact scanAction_cons_some (tryActionAt_exact n1 a1 ('\n' :: actSegment n2 a2 [])
      hne1 hw1 (fun c hc => (ha1 c hc).2))
  refine ⟨?_, ?_, ?_⟩
  · unfold parseAgentOutput
    rw [hfag, hscan]
    simp only [Option.map_some', stripS, hn1w]
  · unfold customParseAction
    rw [scanPerfect_none_of_no_thought (twoActionText n1 a1 n2 a2).data hth]
    have hcsc : scanCustomAction (twoActionText n1 a1 n2 a2).data =
        some ([], n1.data, a1.data) := by
      rw [htxt]
      exact scanCustomAction_cons_some (tryCustomActionAt_exact n1 a1
        ('\n' :: actSegment n2 a2 []) hw1 (fun c hc => (ha1 c hc).2)
        (fun c hc => by
          intro hcb
          have := hw1 c hc
          rw [hcb] at this
          exact absurd this (by decide)))
    rw [hcsc]
    simp only [Option.map_some', stripS, hn1w]
  · have hfind : reactFindAll (twoActionText n1 a1 n2 a2).data =
        [(n1.data, a1.data), (n2.data, a2.data)] := by
      rw [htxt, reactFindAll_actSegment n1 a1 ('\n' :: actSegment n2 a2 []) hne1 hw1
        (fun c hc => (ha1 c hc).2), reactFindAll_newline,
        reactFindAll_actSegment n2 a2 [] hne2 hw2 (fun c hc => (ha2 c hc).2)]
      rfl
    unfold reactExtract
    rw [hfind]
    show Except.ok (twoActionText n1 a1 n2 a2, (⟨stripL n2.data⟩ : String),
        (⟨stripL a2.data⟩ : String)) =
      Except.ok (twoActionText n1 a1 n2 a2, n2, stripS a2)
    rw [hn2w]
    rfl

/-- Witness for C3's amended theorem at concrete names and arguments. -/
theorem parse_fallback_first_occurrence_witness :
    (parseAgentOutput (twoActionText "alpha" "1" "beta" "2")).2 =
      (some "alpha", some (stripS "1")) ∧
    (customParseAction (twoActionText "alpha" "1" "beta" "2")).map
      (fun r => (r.2.1, r.2.2)) = some ("alpha", stripS "1") ∧
    reactExtract (twoActionText "alpha" "1" "beta" "2") =
      Except.ok (twoActionText "alpha" "1" "beta" "2", "beta", stripS "2") :=
  parse_fallback_first_occurrence "alpha" "1" "beta" "2" (by decide) (by decide)
    (by decide) (by decide) (by decide) (by decide) (by decide) (by decide)

/-- Claim C3 counterexample: on a text with two occurrences the fallback of
`_parse_action` (and of `_parse_agent_output`) returns the **first**
occurrence `alpha[1]`, while the last occurrence is `beta[2]`. -/
theorem parse_fallback_first_not_last_cex :
    customParseAction "Action: alpha[1] Action: beta[2]" =
      some ("Thought: " ++ synthDefaultThought ++ "\nAction: alpha[1]", "alpha", "1") ∧
    (parseAgentOutput "Action: alpha[1] Action: beta[2]").2 = (some "alpha", some "1") ∧
    (allActionOccs "Action: alpha[1] Action: beta[2]".data).getLast? =
      some ("beta".data, "2".data) ∧
    ("alpha", "1") ≠ ("beta", "2") := by
  refine ⟨by decide, by decide, by decide, by decide⟩

/-- Claim C6 (amended): `OptimalReActAgent._parse_agent_output` is total —
every match-group access is guarded, so for every input it returns the parsed
step and never fails; `react_agent.py`'s extraction instead raises
`ValueError` whenever the text contains no action pattern (its caller turns
the exception into an error event). -/
theorem parser_total_baseline :
    (∀ s : String, parseAgentOutputE s = Except.ok (parseAgentOutput s)) ∧
    (∀ s : String, reactFindAll s.data = [] →
      reactExtract s = Except.error ("No Action found in LLM response:\n" ++ s)) := by
  constructor
  · intro s
    unfold parseAgentOutputE parseAgentOutput
    cases ht : thoughtGroup s.data with
    | none =>
      cases hf : finalAnswerGroup s.data with
      | none =>
        cases hs : scanAction s.data with
        | none => simp [ht, hf, hs, groupAcc]
        | some p => simp [ht, hf, hs, groupAcc]
      | some g => simp [ht, hf, groupAcc]
    | some g =>
      cases hf : finalAnswerGroup s.data with
      | none =>
        cases hs : scanAction s.data with
        | none => simp [ht, hf, hs, groupAcc]
        | some p => simp [ht, hf, hs, groupAcc]
      | some g2 => simp [ht, hf, groupAcc]
  · intro s hfind
    unfold reactExtract
    rw [hfind]
    rfl

/-- Witness for C6's amended theorem at the concrete unparsable input
`hello`. -/
theorem parser_total_baseline_witness :
    parseAgentOutputE "hello" = Except.ok (parseAgentOutput "hello") ∧
    reactExtract "hello" = Except.error ("No Action found in LLM response:\n" ++ "hello") :=
  ⟨parser_total_baseline.1 "hello", parser_total_baseline.2 "hello" (by decide)⟩

/-- Claim C6 counterexample: on text with no recognizable action,
`react_agent.py`'s extraction fails (raises `ValueError`) instead of
returning a parsed step, and its stream surfaces the exception text as an
error event. -/
theorem react_extract_raises_cex :
    reactExtract "hello" = Except.error "No Action found in LLM response:\nhello" ∧
    (reactRun [Msg.system "SP"] [] 2 "q" (fun _ => "hello")).evs =
      [Ev.thought "hello", Ev.error "No Action found in LLM response:\nhello"] := by
  refine ⟨rfl, by decide⟩

theorem customGo_ctxs_mono (cfg : CustomCfg) (oracle : Nat → String) :
    ∀ (r i : Nat) (msgs : List Msg) (hist : List (String × String))
      (ctxs : List (List Msg)),
      ∃ tail, (customStreamGo cfg oracle i r msgs hist ctxs).ctxs = ctxs ++ tail := by
  intro r
  induction r with
  | zero =>
    intro i msgs hist ctxs
    exact ⟨[], (List.append_nil ctxs).symm⟩
  | succ r ih =>
    intro i msgs hist ctxs
    rw [customStreamGo]
    dsimp only
    cases hta : (customTA msgs (oracle (i - 1))).2 with
    | none => exact ⟨[customPrompt cfg.systemPrompt msgs], rfl⟩
    | some la =>
      obtain ⟨full, n, a⟩ := la
      dsimp only
      by_cases hc1 : (toLowerS n ≠ "finish" && hist.contains (toLowerS n, a)) = true
      · rw [if_pos hc1]
        exact ⟨[customPrompt cfg.systemPrompt msgs], rfl⟩
      · rw [if_neg hc1]
        by_cases hc2 : toLowerS n = "finish"
        · rw [if_pos hc2]
          exact ⟨[customPrompt cfg.systemPrompt msgs], rfl⟩
        · rw [if_neg hc2]
          obtain ⟨tail, htail⟩ := ih (i + 1)
            (msgs ++ [Msg.ai full,
              Msg.toolMsg ("call_" ++ n ++ "_" ++ toString i) n
                (customExec cfg.tools n a)])
            (dequePush cfg.historyLength hist (toLowerS n, a))
            (ctxs ++ [customPrompt cfg.systemPrompt msgs])
          refine ⟨[customPrompt cfg.systemPrompt msgs] ++ tail, ?_⟩
          dsimp only
          rw [htail, List.append_assoc]

theorem customGo_ctxs_head (cfg : CustomCfg) (oracle : Nat → String) (r i : Nat)
    (msgs : List Msg) (hist : List (String × String)) :
    ∃ tail, (customStreamGo cfg oracle i (r + 1) msgs hist []).ctxs =
      customPrompt cfg.systemPrompt msgs :: tail := by
  rw [customStreamGo]
  dsimp only
  cases hta : (customTA msgs (oracle (i - 1))).2 with
  | none => exact ⟨[], rfl⟩
  | some la =>
    obtain ⟨full, n, a⟩ := la
    dsimp only
    by_cases hc1 : (toLowerS n ≠ "finish" && hist.contains (toLowerS n, a)) = true
    · rw [if_pos hc1]
      exact ⟨[], rfl⟩
    · rw [if_neg hc1]
      by_cases hc2 : toLowerS n = "finish"
      · rw [if_pos hc2]
        exact ⟨[], rfl⟩
      · rw [if_neg hc2]
        obtain ⟨tail, htail⟩ := customGo_ctxs_mono cfg oracle r (i + 1)
          (msgs ++ [Msg.ai full,
            Msg.toolMsg ("call_" ++ n ++ "_" ++ toString i) n
              (customExec cfg.tools n a)])
          (dequePush cfg.historyLength hist (toLowerS n, a))
          ([] ++ [customPrompt cfg.systemPrompt msgs])
        refine ⟨tail, ?_⟩
        dsimp only
        rw [htail]
        rfl

/-- Claim C9 (amended): `custom_react_agent.ReActAgent.stream` clears the
conversation state on entry, so regardless of whatever state earlier queries
left behind, the first model call of a new query sees exactly the system
instruction and the new user query.  (`react_agent.py` does **not** reset:
its context keeps the turns of all previous queries — see the
counterexample.) -/
theorem custom_stream_state_reset (prior : CustomState) (cfg : CustomCfg)
    (q : String) (oracle : Nat → String) (h : 1 ≤ cfg.maxIterations) :
    (customRun prior cfg q oracle).ctxs.head? =
      some [Msg.system cfg.systemPrompt, Msg.user q] := by
  obtain ⟨r, hr⟩ : ∃ r, cfg.maxIterations = r + 1 := ⟨cfg.maxIterations - 1, by omega⟩
  unfold customRun
  rw [hr]
  obtain ⟨tail, htail⟩ := customGo_ctxs_head cfg oracle r 1 [Msg.user q] []
  rw [htail]
  rfl

/-- Witness for C9's amended theorem: a prior state polluted with old turns
and a stale Loop-Guard window is discarded. -/
theorem custom_stream_state_reset_witness :
    (customRun ⟨[Msg.user "old", Msg.ai "stale"], [("x", "y")]⟩ ⟨[], 3, 3, "CP"⟩ "new"
      (fun _ => "Thought: t\nAction: finish[done]")).ctxs.head? =
      some [Msg.system "CP", Msg.user "new"] :=
  custom_stream_state_reset ⟨[Msg.user "old", Msg.ai "stale"], [("x", "y")]⟩
    ⟨[], 3, 3, "CP"⟩ "new" (fun _ => "Thought: t\nAction: finish[done]") (by decide)

/-- Claim C9 counterexample: `react_agent.py` retains the previous query's
turns — the second `stream` call's first model context contains the first
query and its answer, not just the system instruction and the new query. -/
theorem react_stream_retains_history_cex :
    (reactRun (reactRun [Msg.system "SP"] [] 3 "one"
        (fun _ => "Thought 1: t\nAction 1: finish[hi]")).msgs [] 3 "two"
        (fun _ => "no action")).ctxs.head? =
      some [Msg.system "SP", Msg.user "one",
        Msg.ai "Thought 1: t\nAction 1: finish[hi]", Msg.ai "hi", Msg.user "two"] ∧
    (reactRun (reactRun [Msg.system "SP"] [] 3 "one"
        (fun _ => "Thought 1: t\nAction 1: finish[hi]")).msgs [] 3 "two"
        (fun _ => "no action")).ctxs.head? ≠
      some [Msg.system "SP", Msg.user "two"] := by
  refine ⟨by decide, by decide⟩

/-- Claim C8 counterexample: the `react_agent.py` exhaustion error message
does not carry the configured budget value (here 2). -/
theorem react_budget_message_lacks_value_cex :
    (reactRun [Msg.system "SP"] [("echo", fun s => Except.ok s)] 2 "go"
        (fun _ => "Thought 1: t\nAction 1: echo[hi]")).evs.getLast? =
      some (Ev.error "Max iterations reached without finishing.") ∧
    hasOccStr "2" "Max iterations reached without finishing." = false := by
  constructor
  · decide
  · decide

/-! ### Concrete evaluations of the embedded parsers and helpers (sanity checks) -/

example : parseAgentOutput "Thought: T\nAction: calculate[2+2]" =
    (some "T\nAction: calculate[2+2]", some "calculate", some "2+2") := by decide

example : parseAgentOutput "hello" = (none, none, none) := by decide

example : parseAgentOutput "Final Answer: 42" = (none, some "finish", some "42") := by decide

example : parseAgentOutput "Action: finish[]" = (none, some "finish", some "") := by decide

example : parseAgentOutput "Action: a[1] and Action: b[2]" =
    (none, some "a", some "1") := by decide

example : customParseAction "Thought: t\nAction: ghost[x]" =
    some ("Thought: t\nAction: ghost[x]", "ghost", "x") := by decide

example : customParseAction "Action: alpha[1] Action: beta[2]" =
    some ("Thought: " ++ synthDefaultThought ++ "\nAction: alpha[1]", "alpha", "1") := by
  decide

example : customParseAction "Thought: I wonder" = some ("Thought: I wonder", "", "") := by
  decide

example : customParseAction "plain text" = none := by decide

example : reactFindAll "Action: a[1] and Action: b[2]".data =
    [("a".data, "1".data), ("b".data, "2".data)] := by decide

example : reactExtract "Thought 1: t\nAction 1: finish[hi]" =
    Except.ok ("Thought 1: t\nAction 1: finish[hi]", "finish", "hi") := rfl

example : reactExtract "hello" = Except.error "No Action found in LLM response:\nhello" := rfl

example : lgRepeat 3 ("search", "foo") 4 = [false, true, true, true] := by decide

example : lgRepeat 1 ("search", "foo") 2 = [false, true] := by decide

example : jsonObjInput? "\x7b\"input\": \"16\"\x7d" = some "16" := by decide

example : jsonObjInput? "hi" = none := by decide

example : jsonObjInput? "42" = none := by decide

end AssistAI
